import Mathlib

/-!
Verification development for the batting-matchup projection model
(`bvp-model`).  The JavaScript source is shallowly embedded over `ℚ`
(JavaScript numbers are IEEE doubles; all constants and operations used by
the scoring core are exact decimal/rational computations, so `ℚ` is the
faithful idealisation).  Absent values (`null`/`undefined`) are modelled by
`Option`.  The one irrational primitive, `Math.sqrt`, is abstracted by a
function parameter `sq : ℚ → ℚ` together with the specification
`SqrtSpec` capturing the properties of the real square root on `[0,1]`
that the code relies on; all theorems quantify over any such `sq`.
For the normalisation library, whose behaviour on `NaN`/`±Infinity`
inputs matters, JavaScript numbers are modelled by the inductive `JSNum`.
-/

namespace BVP

/-- `clamp(n, lo, hi)` from the source: `Math.min(hi, Math.max(lo, n))`. -/
def clamp (n lo hi : ℚ) : ℚ := min hi (max lo n)

/-- `Math.round` on a rational: round half towards positive infinity. -/
def jsRound (q : ℚ) : ℤ := ⌊q + 1/2⌋

/-- Specification of `Math.sqrt` as used by the code: on inputs in `[0,1]`
the result lies in `[0,1]`.  Every scoring theorem holds for any `sq`
satisfying this, in particular for the true square root. -/
def SqrtSpec (sq : ℚ → ℚ) : Prop :=
  ∀ x : ℚ, 0 ≤ x → x ≤ 1 → 0 ≤ sq x ∧ sq x ≤ 1

/-- `OPS_BASELINE = 0.72`. -/
def OPS_BASELINE : ℚ := 0.72

/-- Core of `normOPS` on a finite number: linear clamp over `[0.40, 1.050]`. -/
def normOPSfin (ops : ℚ) : ℚ := clamp ((ops - 0.40) / (1.050 - 0.40)) 0 1

/-- `normOPS` restricted to the null-or-finite domain used by the scorer
(`ops == null` yields the neutral 0.5). -/
def normOPS : Option ℚ → ℚ
  | none => 0.5
  | some ops => normOPSfin ops

/-- Core of `normH9` on a finite number: linear clamp over `[6.0, 12.0]`. -/
def normH9fin (h9 : ℚ) : ℚ := clamp ((h9 - 6.0) / (12.0 - 6.0)) 0 1

/-- `normH9`: non-finite (here: absent) input yields the neutral 0.5. -/
def normH9 : Option ℚ → ℚ
  | none => 0.5
  | some h9 => normH9fin h9

/-- Core of `normPA` on a finite number: linear clamp over `[3.8, 4.8]`. -/
def normPAfin (pa : ℚ) : ℚ := clamp ((pa - 3.8) / (4.8 - 3.8)) 0 1

/-- `normPA`: non-finite (here: absent) input yields the neutral 0.5. -/
def normPA : Option ℚ → ℚ
  | none => 0.5
  | some pa => normPAfin pa

/-- Core of `normWTB` on a finite number, mirroring the branch order of the
source: floor 0.190 maps to 0, elite 0.272 and above to 1, the league
baseline 0.223 to 0.5, with linear interpolation on each half-segment. -/
def normWTBfin (w : ℚ) : ℚ :=
  if w ≤ 0.190 then 0
  else if 0.272 ≤ w then 1
  else if w = 0.223 then 0.5
  else if 0.223 < w then 0.5 + 0.5 * ((w - 0.223) / (0.272 - 0.223))
  else 0.5 * ((w - 0.190) / (0.223 - 0.190))

/-- `normWTB`: non-finite (here: absent) input yields the neutral 0.5. -/
def normWTB : Option ℚ → ℚ
  | none => 0.5
  | some w => normWTBfin w

/-- `WTB_PA_MIN = 150`, `WTB_PA_MAX = 500`, `WTB_PA_FLOOR = 0.65`;
`wtbPAConfidence` ramps from the floor at 150 PA to 1 at 500 PA with a
square-root ease, and is pinned at the floor when PA is missing. -/
def wtbPAConfidence (sq : ℚ → ℚ) : Option ℚ → ℚ
  | none => 0.65
  | some pa => 0.65 + (1 - 0.65) * sq (clamp ((pa - 150) / (500 - 150)) 0 1)

/-! ## The head-to-head calibration grid -/

/-- `H2H_OPS_BINS`: the 12 OPS bin edges. -/
def H2H_OPS_BINS : List ℚ := [0.2, 0.4, 0.6, 0.7, 0.8, 0.85, 0.9, 0.95, 1.0, 1.2, 1.4, 2.0]

/-- `H2H_GRID_POINTS`: 25 rows (at-bats 1..25) of 12 cell values, points out of 30. -/
def H2H_GRID_POINTS : List (List ℚ) := [
  [14, 14, 14, 14, 14, 16, 16, 16, 16, 17, 17, 19],
  [10, 11, 13, 13, 14, 16, 16, 17, 17, 18, 24, 29],
  [10, 11, 12, 12, 14, 16, 19, 19, 19, 20, 24, 29],
  [6, 7, 11, 11, 14, 17, 20, 19, 20, 22, 28, 30],
  [5, 7, 10, 11, 14, 17, 20, 20, 23, 25, 28, 30],
  [5, 7, 8, 11, 14, 17, 20, 20, 24, 26, 29, 30],
  [5, 7, 7, 10, 14, 17, 20, 22, 25, 26, 29, 30],
  [4, 6, 7, 10, 14, 18, 20, 22, 25, 28, 29, 30],
  [4, 6, 7, 10, 14, 18, 20, 22, 25, 28, 29, 30],
  [4, 5, 7, 10, 14, 18, 20, 22, 26, 28, 29, 30],
  [2, 4, 7, 10, 14, 18, 20, 22, 26, 28, 29, 30],
  [2, 4, 7, 8, 14, 19, 20, 22, 28, 28, 29, 30],
  [2, 4, 7, 8, 14, 19, 22, 23, 28, 29, 29, 30],
  [2, 2, 7, 8, 14, 19, 22, 23, 28, 29, 30, 30],
  [2, 2, 6, 8, 14, 19, 22, 23, 28, 29, 30, 30],
  [2, 2, 6, 7, 14, 20, 23, 23, 29, 29, 30, 30],
  [2, 2, 6, 7, 14, 20, 23, 24, 29, 29, 30, 30],
  [2, 2, 5, 7, 14, 20, 23, 24, 29, 30, 30, 30],
  [2, 2, 5, 7, 14, 22, 23, 25, 29, 30, 30, 30],
  [1, 1, 5, 7, 14, 22, 24, 25, 29, 30, 30, 30],
  [1, 1, 4, 6, 14, 22, 24, 26, 30, 30, 30, 30],
  [1, 1, 4, 6, 14, 22, 24, 26, 30, 30, 30, 30],
  [1, 1, 4, 6, 14, 22, 25, 26, 30, 30, 30, 30],
  [1, 1, 4, 6, 14, 22, 25, 28, 30, 30, 30, 30],
  [1, 1, 4, 6, 14, 22, 25, 28, 30, 30, 30, 30]]

/-- The bin-search loop of `h2hWeightFromGrid`: the first `k ≤ 10` with
`bins[k] ≤ ops ≤ bins[k+1]`, defaulting to 0 when no bin matches. -/
def findBin (x : ℚ) : ℕ :=
  if 0.2 ≤ x ∧ x ≤ 0.4 then 0
  else if 0.4 ≤ x ∧ x ≤ 0.6 then 1
  else if 0.6 ≤ x ∧ x ≤ 0.7 then 2
  else if 0.7 ≤ x ∧ x ≤ 0.8 then 3
  else if 0.8 ≤ x ∧ x ≤ 0.85 then 4
  else if 0.85 ≤ x ∧ x ≤ 0.9 then 5
  else if 0.9 ≤ x ∧ x ≤ 0.95 then 6
  else if 0.95 ≤ x ∧ x ≤ 1.0 then 7
  else if 1.0 ≤ x ∧ x ≤ 1.2 then 8
  else if 1.2 ≤ x ∧ x ≤ 1.4 then 9
  else if 1.4 ≤ x ∧ x ≤ 2.0 then 10
  else 0

/-- Interpolated points of one grid row at a (clamped) OPS value `x`:
`row[i] + u * (row[min(i+1, 11)] - row[i])` with
`u = (x - lo) / (hi - lo)` when `hi > lo`, else 0. -/
def rowValueAt (row : List ℚ) (x : ℚ) : ℚ :=
  let i := findBin x
  let lo := H2H_OPS_BINS.getD i 0
  let hi := H2H_OPS_BINS.getD (min (i + 1) 11) 0
  let u := if lo < hi then (x - lo) / (hi - lo) else 0
  row.getD i 0 + u * (row.getD (min (i + 1) (row.length - 1)) 0 - row.getD i 0)

/-- Row index (0-based) used by `h2hWeightFromGrid` for an at-bats count:
`clamp(Math.round(ab), 1, 25) - 1`.  Missing at-bats default to 0. -/
def h2hRowIndex (ab : Option ℚ) : ℕ :=
  ((min (25 : ℤ) (max 1 (jsRound (ab.getD 0)))) - 1).toNat

/-- `h2hWeightFromGrid(ab, ops)`: bilinear lookup (the at-bats dimension is
exact, `t = 0`, so only the OPS dimension interpolates), producing a share
clamped to `[0, 0.30]`.  Missing/non-finite at-bats default to 0 and
missing/non-finite OPS to `OPS_BASELINE`, as in the source guards. -/
def h2hWeightFromGrid (ab ops : Option ℚ) : ℚ :=
  let opsClamped := clamp (ops.getD OPS_BASELINE) 0.2 2.0
  let points := rowValueAt (H2H_GRID_POINTS.getD (h2hRowIndex ab) []) opsClamped
  clamp (points / 100) 0 0.30

/-! ## The composite scorer (`analyzeProbable` per-hitter computation) -/

/-- The per-hitter signal snapshot consumed by the scoring core.  Fields are
`Option ℚ` (a JavaScript number or `null`); `projectedOrder` is the
projected lineup slot; `opponentIsHome` tells which side of the projected
plate-appearance table applies. -/
structure SignalBundle where
  ops_vs_pitcher : Option ℚ
  ab_vs_pitcher : Option ℚ
  wtb : Option ℚ
  season_pa : Option ℚ
  h9_vs_side : Option ℚ
  h9_last28 : Option ℚ
  ops_vs_hand : Option ℚ
  ops_site : Option ℚ
  ops_last7 : Option ℚ
  pa_last7 : Option ℚ
  projectedOrder : Option ℕ
  opponentIsHome : Bool

/-- `PROJECTED_PA_TABLE` lookup: estimated plate appearances by slot and
site; slots outside 1..5 (and missing slots) yield `null`. -/
def projectedPAFor (slot : Option ℕ) (isHome : Bool) : Option ℚ :=
  match slot with
  | none => none
  | some s =>
    (if isHome then [(1, (4.49 : ℚ)), (2, 4.40), (3, 4.30), (4, 4.20), (5, 4.10)]
     else [(1, (4.69 : ℚ)), (2, 4.59), (3, 4.49), (4, 4.39), (5, 4.28)]).lookup s

/-- The dynamic head-to-head weight for a bundle:
`h2hWeightFromGrid(r.ab_vs_pitcher ?? 0, r.ops_vs_pitcher)`. -/
def w_h2h_dyn (b : SignalBundle) : ℚ :=
  h2hWeightFromGrid (some (b.ab_vs_pitcher.getD 0)) b.ops_vs_pitcher

/-- The dynamic last-7-days weight: square-root ramp of the base weight 0.10
over last-7 plate appearances in `[3, 20]` when PA ≥ 3 and an OPS value is
present, else the neutral half weight `0.10 * 0.50`. -/
def w_last7_dyn (sq : ℚ → ℚ) (b : SignalBundle) : ℚ :=
  match b.pa_last7, b.ops_last7 with
  | some pa, some _ =>
    if 3 ≤ pa then 0.10 * (0.50 + 0.50 * sq (clamp ((pa - 3) / (20 - 3)) 0 1))
    else 0.10 * 0.50
  | _, _ => 0.10 * 0.50

/-- `fixedSum = baseW.wtb + baseW.opp + w_h2h_dyn`. -/
def fixedSum (b : SignalBundle) : ℚ := 0.30 + 0.05 + w_h2h_dyn b

/-- `shrinkSum`: the sum of the five redistribution-eligible weights
(`h9_side`, `h9_28`, `ops_hand`, `ops_site`, dynamic `last7`). -/
def shrinkSum (sq : ℚ → ℚ) (b : SignalBundle) : ℚ :=
  0.04 + 0.02 + 0.15 + 0.04 + w_last7_dyn sq b

/-- `scaleShrink = shrinkSum > 0 ? max(0, 1 - fixedSum) / shrinkSum : 1`. -/
def scaleShrink (sq : ℚ → ℚ) (b : SignalBundle) : ℚ :=
  if 0 < shrinkSum sq b then max 0 (1 - fixedSum b) / shrinkSum sq b else 1

/-- Resolved `h9_side` weight after redistribution. -/
def w_h9_side (sq : ℚ → ℚ) (b : SignalBundle) : ℚ := 0.04 * scaleShrink sq b

/-- Resolved `h9_28` weight after redistribution. -/
def w_h9_28 (sq : ℚ → ℚ) (b : SignalBundle) : ℚ := 0.02 * scaleShrink sq b

/-- Resolved `ops_hand` weight after redistribution. -/
def w_ops_hand (sq : ℚ → ℚ) (b : SignalBundle) : ℚ := 0.15 * scaleShrink sq b

/-- Resolved `ops_site` weight after redistribution. -/
def w_ops_site (sq : ℚ → ℚ) (b : SignalBundle) : ℚ := 0.04 * scaleShrink sq b

/-- Resolved `last7` weight: rescaled but capped at its base value 0.10. -/
def w_last7 (sq : ℚ → ℚ) (b : SignalBundle) : ℚ :=
  min (w_last7_dyn sq b * scaleShrink sq b) 0.10

/-- Sum of the eight resolved weights
(`wtb`, `opp`, `h2h`, `h9_side`, `h9_28`, `ops_hand`, `ops_site`, `last7`). -/
def weightsSum (sq : ℚ → ℚ) (b : SignalBundle) : ℚ :=
  0.30 + 0.05 + w_h2h_dyn b + w_h9_side sq b + w_h9_28 sq b +
    w_ops_hand sq b + w_ops_site sq b + w_last7 sq b

/-- `oppNorm`: projected plate appearances mapped onto `[4.10, 4.69]`,
neutral 0.5 when the projected-PA lookup is `null`. -/
def oppNorm (b : SignalBundle) : ℚ :=
  match projectedPAFor b.projectedOrder b.opponentIsHome with
  | none => 0.5
  | some pa => clamp ((pa - 4.10) / (4.69 - 4.10)) 0 1

/-- `oppShare = w.opp * (0.5 + 0.5 * oppNorm)` with `w.opp = 0.05` fixed. -/
def oppShare (b : SignalBundle) : ℚ := 0.05 * (0.5 + 0.5 * oppNorm b)

/-- Contribution `comp.wtb = (normWTB(wtb) * w.wtb) * wtbPAConfidence(season_pa)`
with `w.wtb = 0.30` fixed. -/
def cWtb (sq : ℚ → ℚ) (b : SignalBundle) : ℚ :=
  normWTB b.wtb * 0.30 * wtbPAConfidence sq b.season_pa

/-- Contribution `comp.h9_side = normH9(pitcherH9VsBatterSide) * w.h9_side`. -/
def cH9side (sq : ℚ → ℚ) (b : SignalBundle) : ℚ := normH9 b.h9_vs_side * w_h9_side sq b

/-- Contribution `comp.h9_28 = normH9(pitcher.hitsPer9Inn_last_28_days) * w.h9_28`. -/
def cH928 (sq : ℚ → ℚ) (b : SignalBundle) : ℚ := normH9 b.h9_last28 * w_h9_28 sq b

/-- Contribution `comp.ops_hand = normOPS(opsVsPitcherHand) * w.ops_hand`. -/
def cOpsHand (sq : ℚ → ℚ) (b : SignalBundle) : ℚ := normOPS b.ops_vs_hand * w_ops_hand sq b

/-- Contribution `comp.ops_site = normOPS(opsHomeAwayForGame) * w.ops_site`. -/
def cOpsSite (sq : ℚ → ℚ) (b : SignalBundle) : ℚ := normOPS b.ops_site * w_ops_site sq b

/-- Contribution `comp.last7 = normOPS(opsLast7) * w.last7`. -/
def cLast7 (sq : ℚ → ℚ) (b : SignalBundle) : ℚ := normOPS b.ops_last7 * w_last7 sq b

/-- The seven non-h2h contributions in the object-entry order of `comp`:
`wtb, h9_side, h9_28, ops_hand, ops_site, last7, opp`. -/
def compOthers (sq : ℚ → ℚ) (b : SignalBundle) : List ℚ :=
  [cWtb sq b, cH9side sq b, cH928 sq b, cOpsHand sq b, cOpsSite sq b,
   cLast7 sq b, oppShare b]

/-- `denomOthers`: the sum of the seven non-h2h contributions. -/
def denomOthers (sq : ℚ → ℚ) (b : SignalBundle) : ℚ := (compOthers sq b).sum

/-- `scoreRaw`: the sum of all eight contributions (`comp.h2h = w.h2h`). -/
def scoreRaw (sq : ℚ → ℚ) (b : SignalBundle) : ℚ := denomOthers sq b + w_h2h_dyn b

/-- `scaledScore = Math.max(1, Math.round(clamp(scoreRaw, 0, 1) * 100))`. -/
def scaledScore (sq : ℚ → ℚ) (b : SignalBundle) : ℤ :=
  max 1 (jsRound (clamp (scoreRaw sq b) 0 1 * 100))

/-- `absH2H = Math.round(comp.h2h * 100)` (the h2h contribution is always a
finite grid share, so the `isFinite` guard of the source is vacuous here). -/
def absH2H (b : SignalBundle) : ℤ := jsRound (w_h2h_dyn b * 100)

/-- `remainingPts = Math.max(0, scaledScore - absH2H)`. -/
def remainingPts (sq : ℚ → ℚ) (b : SignalBundle) : ℤ :=
  max 0 (scaledScore sq b - absH2H b)

/-- The proportionally scaled integer points of the seven non-h2h signals:
`Math.max(0, Math.round(remainingPts * (base / denomOthers)))` each. -/
def scaledOthers (sq : ℚ → ℚ) (b : SignalBundle) : List ℤ :=
  (compOthers sq b).map
    (fun c => max 0 (jsRound ((remainingPts sq b : ℚ) * (c / denomOthers sq b))))

/-- `delta`: the rounding shortfall of the scaled non-h2h points. -/
def delta (sq : ℚ → ℚ) (b : SignalBundle) : ℤ :=
  remainingPts sq b - (scaledOthers sq b).sum

/-- First index attaining the maximum of a list (the source sorts the
indexed values descending with a stable sort and takes the first). -/
def firstMaxIdxAux : List ℚ → ℕ × ℚ → ℕ → ℕ × ℚ
  | [], acc, _ => acc
  | v :: rest, acc, i =>
    if acc.2 < v then firstMaxIdxAux rest (i, v) (i + 1)
    else firstMaxIdxAux rest acc (i + 1)

/-- Index of the largest non-h2h contribution (first one on ties). -/
def firstMaxIdx : List ℚ → ℕ
  | [] => 0
  | v :: rest => (firstMaxIdxAux rest (0, v) 1).1

/-- The non-h2h breakdown entries after the rounding-drift fix: when
`delta ≠ 0` the entry of the largest contribution is adjusted by `delta`
(floored at 0). -/
def fixedOthers (sq : ℚ → ℚ) (b : SignalBundle) : List ℤ :=
  if delta sq b = 0 then scaledOthers sq b
  else
    let j := firstMaxIdx (compOthers sq b)
    (scaledOthers sq b).set j (max 0 ((scaledOthers sq b).getD j 0 + delta sq b))

/-- The values of `score_breakdown` in entry order (seven scaled signals then
`h2h`); when no non-h2h contribution is positive, the single fallback entry
assigns the whole score to `h2h`. -/
def breakdownList (sq : ℚ → ℚ) (b : SignalBundle) : List ℤ :=
  if 0 < denomOthers sq b then fixedOthers sq b ++ [absH2H b]
  else [scaledScore sq b]

/-- Sum of the values of `score_breakdown`. -/
def breakdownSum (sq : ℚ → ℚ) (b : SignalBundle) : ℤ := (breakdownList sq b).sum

/-- The `h2h` entry of `score_breakdown`. -/
def breakdownH2H (sq : ℚ → ℚ) (b : SignalBundle) : ℤ :=
  if 0 < denomOthers sq b then absH2H b else scaledScore sq b

/-! ## The lineup-slot projector -/

/-- One step of the `chooseProjectedOrder` fold over `Object.entries(counts)`:
a strictly larger count takes over; an equal count takes over only when its
slot is the latest observed slot. -/
def chooseStep (latest : Option ℕ) (acc : Option ℕ × ℤ) (p : ℕ × ℕ) : Option ℕ × ℤ :=
  if acc.2 < (p.2 : ℤ) then (some p.1, (p.2 : ℤ))
  else if (p.2 : ℤ) = acc.2 ∧ some p.1 = latest then (some p.1, acc.2)
  else acc

/-- `chooseProjectedOrder(counts, latestSlot)`: fold the per-slot counts
(listed in the ascending-slot order JavaScript uses for integer object
keys) starting from `bestSlot = null, bestCount = -1`. -/
def chooseProjectedOrder (counts : List (ℕ × ℕ)) (latest : Option ℕ) : Option ℕ :=
  (counts.foldl (chooseStep latest) (none, -1)).1

/-- The same fold without the tie-breaker branch: keeps the first slot
attaining the maximum count. -/
def chooseStepF (acc : Option ℕ × ℤ) (p : ℕ × ℕ) : Option ℕ × ℤ :=
  if acc.2 < (p.2 : ℤ) then (some p.1, (p.2 : ℤ)) else acc

/-- The slot whose count is maximal, first one in iteration order on ties. -/
def chooseFirstMax (counts : List (ℕ × ℕ)) : Option ℕ :=
  (counts.foldl chooseStepF (none, -1)).1

/-- The largest count appearing in the entry list (−1 when empty). -/
def maxCount (counts : List (ℕ × ℕ)) : ℤ :=
  counts.foldl (fun m p => max m (p.2 : ℤ)) (-1)

/-- A batting observation: (game date, lineup slot).  Pitcher records and
null slots are discarded by the caller before this level. -/
abbrev BattingObservation := ℕ × ℕ

/-- Number of observations of a given slot. -/
def slotCount (obs : List BattingObservation) (s : ℕ) : ℕ :=
  (obs.filter (fun o => o.2 = s)).length

/-- The per-slot counts of an observation list, in the ascending-slot order
in which JavaScript iterates integer object keys (slots 1..9). -/
def countsOf (obs : List BattingObservation) : List (ℕ × ℕ) :=
  (List.range 9).filterMap (fun k =>
    let s := k + 1
    if slotCount obs s = 0 then none else some (s, slotCount obs s))

/-- The slot of the chronologically latest observation (`latest` updates
whenever a date is ≥ the stored one, so equal dates favour later records). -/
def latestOf (obs : List BattingObservation) : Option ℕ :=
  (obs.foldl (fun acc o =>
    match acc with
    | none => some o
    | some a => if a.1 ≤ o.1 then some o else acc) none).map (·.2)

/-- Projected batting order of a hitter from their observations, as built by
`analyzeProbable` (fold into counts and latest slot, then choose). -/
def projectSlot (obs : List BattingObservation) : Option ℕ :=
  chooseProjectedOrder (countsOf obs) (latestOf obs)

/-! ## Pipeline assembly (`main`): combined, filtered, sorted hitter list -/

/-- The fields of an analyzed hitter record used by the final filters and
sorts of the pipeline. -/
structure Hitter where
  score : ℤ
  wtb_percent : Option ℚ
  season_pa : Option ℚ
  ab_vs_pitcher : Option ℚ
  projectedBattingOrder : Option ℕ

/-- `Number(x.toFixed(3))` for the exactly-representable values produced
here: round to 3 decimal places. -/
def toFixed3 (q : ℚ) : ℚ := (jsRound (q * 1000) : ℚ) / 1000

/-- Build the hitter record for a signal bundle (`score`, `wtb_percent`,
`season_pa` and the two eligibility fields). -/
def mkHitter (sq : ℚ → ℚ) (b : SignalBundle) : Hitter :=
  { score := scaledScore sq b
    wtb_percent := b.wtb.map toFixed3
    season_pa := b.season_pa
    ab_vs_pitcher := b.ab_vs_pitcher
    projectedBattingOrder := b.projectedOrder }

/-- The per-game eligibility filter:
`(ops_vs_pitcher.ab ?? 0) ≥ 1` and projected slot non-null and ≤ 5. -/
def hitterFilter (h : Hitter) : Bool :=
  decide (1 ≤ h.ab_vs_pitcher.getD 0) &&
    (match h.projectedBattingOrder with
     | none => false
     | some s => decide (s ≤ 5))

/-- Descending order by final score (`(b.score ?? -1) - (a.score ?? -1)`;
the score is always a number here). -/
def scoreGE (a b : Hitter) : Prop := b.score ≤ a.score

instance : DecidableRel scoreGE := fun a b => inferInstanceAs (Decidable (b.score ≤ a.score))

/-- Sort key of the combined list: `Number.isFinite(wtb_percent) ?
wtb_percent : -1`. -/
def wtbKey (h : Hitter) : ℚ := h.wtb_percent.getD (-1)

/-- Descending order by season weighted-hit-rate percentage. -/
def wtbGE (a b : Hitter) : Prop := wtbKey b ≤ wtbKey a

instance : DecidableRel wtbGE := fun a b => inferInstanceAs (Decidable (wtbKey b ≤ wtbKey a))

/-- The `hitters` array of one per-probable result: map the bundles through
the scorer, apply the eligibility filter, sort by score descending (the
source's stable comparator sort is modelled by a stable insertion sort). -/
def perGameHitters (sq : ℚ → ℚ) (bs : List SignalBundle) : List Hitter :=
  List.insertionSort scoreGE ((bs.map (mkHitter sq)).filter hitterFilter)

/-- The `hitters` array of the combined output document: flatten all
per-probable lists, keep hitters with `(season_pa ?? 0) ≥ 85`, and sort by
`wtb_percent` descending. -/
def combinedHitters (per : List (List Hitter)) : List Hitter :=
  List.insertionSort wtbGE (per.flatten.filter (fun h => decide (85 ≤ h.season_pa.getD 0)))

/-! ## JavaScript numbers for the normalisation library

`normOPS` guards only against `null`/`undefined`, not against non-finite
numbers, so its behaviour on `NaN` and `±Infinity` must be modelled.  A
JavaScript number is a finite rational, `NaN`, or a signed infinity. -/

/-- A JavaScript number. -/
inductive JSNum where
  | finite (q : ℚ)
  | nan
  | posInf
  | negInf
deriving DecidableEq

/-- `Math.max` on JavaScript numbers: any `NaN` operand gives `NaN`. -/
def jsMax : JSNum → JSNum → JSNum
  | .nan, _ => .nan
  | _, .nan => .nan
  | .posInf, _ => .posInf
  | _, .posInf => .posInf
  | .negInf, b => b
  | a, .negInf => a
  | .finite a, .finite b => .finite (max a b)

/-- `Math.min` on JavaScript numbers: any `NaN` operand gives `NaN`. -/
def jsMin : JSNum → JSNum → JSNum
  | .nan, _ => .nan
  | _, .nan => .nan
  | .negInf, _ => .negInf
  | _, .negInf => .negInf
  | .posInf, b => b
  | a, .posInf => a
  | .finite a, .finite b => .finite (min a b)

/-- `(x - c) / d` for finite constants `c` and `d > 0`: finite values map
linearly, `NaN` and infinities propagate. -/
def jsAffine (c d : ℚ) : JSNum → JSNum
  | .finite q => .finite ((q - c) / d)
  | .nan => .nan
  | .posInf => .posInf
  | .negInf => .negInf

/-- `clamp(x, 0, 1)` on JavaScript numbers. -/
def jsClamp01 (x : JSNum) : JSNum := jsMin (.finite 1) (jsMax (.finite 0) x)

/-- `normOPS` over the full JavaScript-number domain: only `null`/`undefined`
is mapped to the neutral 0.5; any number, finite or not, flows into the
clamp. -/
def normOPSJ : Option JSNum → JSNum
  | none => .finite 0.5
  | some x => jsClamp01 (jsAffine 0.40 (1.050 - 0.40) x)

/-- `normH9` over the full domain: the `Number.isFinite` guard sends every
non-finite input to 0.5. -/
def normH9J : Option JSNum → JSNum
  | some (.finite q) => .finite (normH9fin q)
  | _ => .finite 0.5

/-- `normPA` over the full domain. -/
def normPAJ : Option JSNum → JSNum
  | some (.finite q) => .finite (normPAfin q)
  | _ => .finite 0.5

/-- `normWTB` over the full domain. -/
def normWTBJ : Option JSNum → JSNum
  | some (.finite q) => .finite (normWTBfin q)
  | _ => .finite 0.5

/-- An input that is missing or a non-finite number. -/
def MissingOrNonFinite : Option JSNum → Prop
  | none => True
  | some (.finite _) => False
  | some _ => True

instance : DecidablePred MissingOrNonFinite := fun o =>
  match o with
  | none => .isTrue trivial
  | some (.finite _) => .isFalse id
  | some .nan => .isTrue trivial
  | some .posInf => .isTrue trivial
  | some .negInf => .isTrue trivial

/-- The output is a finite value in `[0, 1]`. -/
def InUnitRange (x : JSNum) : Prop := ∃ q : ℚ, x = .finite q ∧ 0 ≤ q ∧ q ≤ 1

/-- The resolved per-signal weight table `w` built by `analyzeProbable`. -/
structure Weights where
  wtb : ℚ
  opp : ℚ
  h2h : ℚ
  h9_side : ℚ
  h9_28 : ℚ
  ops_hand : ℚ
  ops_site : ℚ
  last7 : ℚ

/-- The weight table after redistribution: `wtb` and `opp` fixed, the
dynamic `h2h` share, the four rescaled signals, and the capped `last7`. -/
def resolvedWeights (sq : ℚ → ℚ) (b : SignalBundle) : Weights :=
  { wtb := 0.30
    opp := 0.05
    h2h := w_h2h_dyn b
    h9_side := w_h9_side sq b
    h9_28 := w_h9_28 sq b
    ops_hand := w_ops_hand sq b
    ops_site := w_ops_site sq b
    last7 := w_last7 sq b }

/-- Sum of the eight entries of a weight table. -/
def weightsSumW (w : Weights) : ℚ :=
  w.wtb + w.opp + w.h2h + w.h9_side + w.h9_28 + w.ops_hand + w.ops_site + w.last7

/-- An all-missing signal bundle (away side): every normalizer falls back to
its neutral value.  Used as a concrete witness input. -/
def bundleMissing : SignalBundle :=
  ⟨none, none, none, none, none, none, none, none, none, none, none, false⟩

/-- 25 at-bats at 0.20 OPS against the pitcher, everything else missing:
the h2h share drops to 0.01, so the rescale factor 32/15 pushes the
dynamic last7 weight over its 0.10 cap. -/
def bundleCapHit : SignalBundle :=
  ⟨some (1/5), some 25, none, none, none, none, none, none, none, none, none, false⟩

/-- A hitter with a high season hit rate but weak matchup signals
(0.40 OPS in 5 at-bats versus the pitcher, projected slot 5 at home). -/
def bundleA : SignalBundle :=
  ⟨some (2/5), some 5, some (3/10), some 100, none, none, none, none, none, none,
   some 5, true⟩

/-- A hitter with a lower season hit rate but elite signals everywhere
(1.000 OPS in 20 at-bats versus the pitcher, projected slot 1 away). -/
def bundleB : SignalBundle :=
  ⟨some 1, some 20, some (1/4), some 500, some 12, some 12, some (21/20), some (21/20),
   some (21/20), some 20, some 1, false⟩

/-! ## Basic lemmas about the numeric utilities -/

lemma clamp_le (n lo hi : ℚ) : clamp n lo hi ≤ hi := min_le_left _ _

lemma le_clamp (n lo hi : ℚ) (h : lo ≤ hi) : lo ≤ clamp n lo hi :=
  le_min h (le_max_left _ _)

lemma clamp_eq_self (n lo hi : ℚ) (h1 : lo ≤ n) (h2 : n ≤ hi) : clamp n lo hi = n := by
  unfold clamp
  rw [max_eq_right h1, min_eq_right h2]

lemma jsRound_le (q : ℚ) : (jsRound q : ℚ) ≤ q + 1/2 := Int.floor_le _

lemma lt_jsRound (q : ℚ) : q - 1/2 < (jsRound q : ℚ) := by
  have := Int.lt_floor_add_one (q + 1/2)
  unfold jsRound
  push_cast at this ⊢
  linarith

lemma jsRound_nonneg (q : ℚ) (h : 0 ≤ q) : 0 ≤ jsRound q := by
  have := lt_jsRound q
  by_contra hneg
  push_neg at hneg
  have : (jsRound q : ℚ) ≤ -1 := by exact_mod_cast Int.le_of_lt_add_one (by exact_mod_cast hneg)
  linarith

lemma jsRound_le_two_mul (q : ℚ) (h : 0 ≤ q) : (jsRound q : ℚ) ≤ 2 * q := by
  rcases le_or_lt (1/2) q with hq | hq
  · have := jsRound_le q
    linarith
  · have : jsRound q ≤ 0 := by
      have : (jsRound q : ℚ) < 1 := lt_of_le_of_lt (jsRound_le q) (by linarith)
      exact_mod_cast Int.lt_add_one_iff.mp (by exact_mod_cast this)
    have : (jsRound q : ℚ) ≤ 0 := by exact_mod_cast this
    linarith

lemma jsRound_mono {p q : ℚ} (h : p ≤ q) : jsRound p ≤ jsRound q :=
  Int.floor_le_floor (by linarith)

lemma normOPSfin_mem (q : ℚ) : 0 ≤ normOPSfin q ∧ normOPSfin q ≤ 1 :=
  ⟨le_clamp _ _ _ (by norm_num), clamp_le _ _ _⟩

lemma normH9fin_mem (q : ℚ) : 0 ≤ normH9fin q ∧ normH9fin q ≤ 1 :=
  ⟨le_clamp _ _ _ (by norm_num), clamp_le _ _ _⟩

lemma normPAfin_mem (q : ℚ) : 0 ≤ normPAfin q ∧ normPAfin q ≤ 1 :=
  ⟨le_clamp _ _ _ (by norm_num), clamp_le _ _ _⟩

lemma normWTBfin_mem (w : ℚ) : 0 ≤ normWTBfin w ∧ normWTBfin w ≤ 1 := by
  unfold normWTBfin
  split_ifs with h1 h2 h3 h4
  · norm_num
  · norm_num
  · norm_num
  · have hu0 : 0 ≤ (w - 0.223) / (0.272 - 0.223) := div_nonneg (by linarith) (by norm_num)
    have hu1 : (w - 0.223) / (0.272 - 0.223) ≤ 1 := by
      rw [div_le_one (by norm_num)]; linarith
    constructor <;> linarith
  · have hfl : 0.190 < w := by linarith
    have hba : w < 0.223 := by
      rcases lt_trichotomy w 0.223 with h | h | h
      · exact h
      · exact absurd h h3
      · exact absurd h h4
    have hu0 : 0 ≤ (w - 0.190) / (0.223 - 0.190) := div_nonneg (by linarith) (by norm_num)
    have hu1 : (w - 0.190) / (0.223 - 0.190) ≤ 1 := by
      rw [div_le_one (by norm_num)]; linarith
    constructor <;> linarith

lemma normOPS_mem (o : Option ℚ) : 0 ≤ normOPS o ∧ normOPS o ≤ 1 := by
  cases o with
  | none => norm_num [normOPS]
  | some q => exact normOPSfin_mem q

lemma normH9_mem (o : Option ℚ) : 0 ≤ normH9 o ∧ normH9 o ≤ 1 := by
  cases o with
  | none => norm_num [normH9]
  | some q => exact normH9fin_mem q

lemma normWTB_mem (o : Option ℚ) : 0 ≤ normWTB o ∧ normWTB o ≤ 1 := by
  cases o with
  | none => norm_num [normWTB]
  | some q => exact normWTBfin_mem q

lemma wtbPAConfidence_mem (sq : ℚ → ℚ) (hsq : SqrtSpec sq) (o : Option ℚ) :
    0.65 ≤ wtbPAConfidence sq o ∧ wtbPAConfidence sq o ≤ 1 := by
  cases o with
  | none => norm_num [wtbPAConfidence]
  | some pa =>
    have h := hsq (clamp ((pa - 150) / (500 - 150)) 0 1)
      (le_clamp _ _ _ (by norm_num)) (clamp_le _ _ _)
    unfold wtbPAConfidence
    constructor <;> nlinarith [h.1, h.2]

/-! ## C9: the `normWTB` calibration points and piecewise-linear shape -/

/-- C9: `normWTB` maps 0.223 to 0.5, 0.19 to 0, 0.272 and 0.30 to 1, is
linear on each half-segment `[0.190, 0.223]` and `[0.223, 0.272]`, and
clamps to 0 below the floor and to 1 above the elite threshold. -/
theorem c9_normWTB_calibration :
    normWTB (some 0.223) = 0.5 ∧ normWTB (some 0.19) = 0 ∧
    normWTB (some 0.272) = 1 ∧ normWTB (some 0.30) = 1 ∧
    (∀ w : ℚ, 0.190 ≤ w → w ≤ 0.223 →
      normWTB (some w) = 0.5 * ((w - 0.190) / (0.223 - 0.190))) ∧
    (∀ w : ℚ, 0.223 ≤ w → w ≤ 0.272 →
      normWTB (some w) = 0.5 + 0.5 * ((w - 0.223) / (0.272 - 0.223))) ∧
    (∀ w : ℚ, w ≤ 0.190 → normWTB (some w) = 0) ∧
    (∀ w : ℚ, 0.272 ≤ w → normWTB (some w) = 1) := by
  refine ⟨by norm_num [normWTB, normWTBfin], by norm_num [normWTB, normWTBfin],
    by norm_num [normWTB, normWTBfin], by norm_num [normWTB, normWTBfin], ?_, ?_, ?_, ?_⟩
  · intro w hlo hhi
    show normWTBfin w = _
    unfold normWTBfin
    split_ifs with h1 h2 h3 h4
    · have : w = 0.190 := le_antisymm h1 hlo
      subst this; norm_num
    · linarith
    · subst h3; norm_num
    · linarith
    · rfl
  · intro w hlo hhi
    show normWTBfin w = _
    unfold normWTBfin
    split_ifs with h1 h2 h3 h4
    · linarith
    · have : w = 0.272 := le_antisymm hhi h2
      subst this; norm_num
    · subst h3; norm_num
    · rfl
    · have : w = 0.223 := by
        rcases lt_trichotomy w 0.223 with h | h | h
        · linarith
        · exact h
        · exact absurd h h4
      exact absurd this h3
  · intro w h
    show normWTBfin w = 0
    unfold normWTBfin
    rw [if_pos h]
  · intro w h
    show normWTBfin w = 1
    unfold normWTBfin
    split_ifs with h1
    · linarith
    · rfl

/-- Witness: the theorem applied on the lower half-segment at 0.2. -/
theorem c9_normWTB_calibration_witness :
    normWTB (some 0.2) = 0.5 * (((0.2 : ℚ) - 0.190) / (0.223 - 0.190)) :=
  c9_normWTB_calibration.2.2.2.2.1 0.2 (by norm_num) (by norm_num)

/-! ## C6: neutral handling of missing and non-finite inputs -/

/-- C6 counterexample: `normOPS` lacks a finiteness guard, so `Infinity`
clamps to 1 rather than the neutral 0.5, and `NaN` propagates to `NaN`,
which is not even a value in `[0, 1]`. -/
theorem c6_counterexample :
    MissingOrNonFinite (some JSNum.posInf) ∧
    normOPSJ (some JSNum.posInf) = JSNum.finite 1 ∧
    normOPSJ (some JSNum.posInf) ≠ JSNum.finite 0.5 ∧
    normOPSJ (some JSNum.nan) = JSNum.nan ∧
    ¬ InUnitRange (normOPSJ (some JSNum.nan)) := by
  refine ⟨trivial, rfl, ?_, rfl, ?_⟩
  · intro h
    injection h with h
    norm_num at h
  · rintro ⟨q, hq, -⟩
    exact JSNum.noConfusion hq

/-- C6 amended: `normH9`, `normPA` and `normWTB` do return a value in
`[0, 1]` and the neutral 0.5 on every missing or non-finite input, and
`normOPS` does so for `null`/`undefined` and clamps finite inputs into
`[0, 1]`; but on non-finite numbers `normOPS` yields 1 (`Infinity`),
0 (`-Infinity`) or `NaN` (`NaN`) instead of 0.5. -/
theorem c6_amended :
    (∀ o, InUnitRange (normH9J o) ∧ (MissingOrNonFinite o → normH9J o = .finite 0.5)) ∧
    (∀ o, InUnitRange (normPAJ o) ∧ (MissingOrNonFinite o → normPAJ o = .finite 0.5)) ∧
    (∀ o, InUnitRange (normWTBJ o) ∧ (MissingOrNonFinite o → normWTBJ o = .finite 0.5)) ∧
    normOPSJ none = .finite 0.5 ∧
    (∀ q : ℚ, normOPSJ (some (.finite q)) = .finite (normOPSfin q) ∧
      0 ≤ normOPSfin q ∧ normOPSfin q ≤ 1) ∧
    normOPSJ (some .posInf) = .finite 1 ∧
    normOPSJ (some .negInf) = .finite 0 ∧
    normOPSJ (some .nan) = .nan := by
  refine ⟨?_, ?_, ?_, rfl, ?_, rfl, rfl, rfl⟩
  · rintro (_ | (q | _ | _ | _))
    · exact ⟨⟨0.5, rfl, by norm_num⟩, fun _ => rfl⟩
    · exact ⟨⟨normH9fin q, rfl, normH9fin_mem q⟩, fun h => absurd h id⟩
    · exact ⟨⟨0.5, rfl, by norm_num⟩, fun _ => rfl⟩
    · exact ⟨⟨0.5, rfl, by norm_num⟩, fun _ => rfl⟩
    · exact ⟨⟨0.5, rfl, by norm_num⟩, fun _ => rfl⟩
  · rintro (_ | (q | _ | _ | _))
    · exact ⟨⟨0.5, rfl, by norm_num⟩, fun _ => rfl⟩
    · exact ⟨⟨normPAfin q, rfl, normPAfin_mem q⟩, fun h => absurd h id⟩
    · exact ⟨⟨0.5, rfl, by norm_num⟩, fun _ => rfl⟩
    · exact ⟨⟨0.5, rfl, by norm_num⟩, fun _ => rfl⟩
    · exact ⟨⟨0.5, rfl, by norm_num⟩, fun _ => rfl⟩
  · rintro (_ | (q | _ | _ | _))
    · exact ⟨⟨0.5, rfl, by norm_num⟩, fun _ => rfl⟩
    · exact ⟨⟨normWTBfin q, rfl, normWTBfin_mem q⟩, fun h => absurd h id⟩
    · exact ⟨⟨0.5, rfl, by norm_num⟩, fun _ => rfl⟩
    · exact ⟨⟨0.5, rfl, by norm_num⟩, fun _ => rfl⟩
    · exact ⟨⟨0.5, rfl, by norm_num⟩, fun _ => rfl⟩
  · intro q
    unfold normOPSJ jsAffine jsClamp01 jsMax jsMin
    exact ⟨rfl, normOPSfin_mem q⟩

/-! ## C3: grid share bounds and (non-)monotonicity in OPS -/

/-- C3 counterexample: at 4 at-bats the calibration row dips from 20 to 19
points between the 0.90 and 0.95 OPS bins, so the grid share is not
monotone in OPS. -/
theorem c3_counterexample :
    (0.9 : ℚ) ≤ 0.95 ∧
    h2hWeightFromGrid (some 4) (some 0.95) < h2hWeightFromGrid (some 4) (some 0.9) := by
  have hidx : h2hRowIndex (some 4) = 3 := by norm_num [h2hRowIndex, jsRound] <;> decide
  have hrow : H2H_GRID_POINTS.getD 3 [] = [6, 7, 11, 11, 14, 17, 20, 19, 20, 22, 28, 30] := rfl
  have e1 : h2hWeightFromGrid (some 4) (some 0.95) = 19/100 := by
    have hcl : clamp ((19:ℚ)/20) 0.2 2.0 = 19/20 :=
      clamp_eq_self _ _ _ (by norm_num) (by norm_num)
    have hfb : findBin (19/20) = 6 := by norm_num [findBin]
    rw [show (0.95 : ℚ) = 19/20 by norm_num]
    simp only [h2hWeightFromGrid, hidx, hrow, Option.getD_some, hcl, rowValueAt, hfb]
    norm_num [clamp, H2H_OPS_BINS, min_def, max_def]
  have e2 : h2hWeightFromGrid (some 4) (some 0.9) = 20/100 := by
    have hcl : clamp ((9:ℚ)/10) 0.2 2.0 = 9/10 :=
      clamp_eq_self _ _ _ (by norm_num) (by norm_num)
    have hfb : findBin (9/10) = 5 := by norm_num [findBin]
    rw [show (0.9 : ℚ) = 9/10 by norm_num]
    simp only [h2hWeightFromGrid, hidx, hrow, Option.getD_some, hcl, rowValueAt, hfb]
    norm_num [clamp, H2H_OPS_BINS, min_def, max_def]
  rw [e1, e2]
  norm_num

/-- A calibration row is non-decreasing across its OPS bins. -/
def RowMono (row : List ℚ) : Prop :=
  ∀ k, k < row.length - 1 → row.getD k 0 ≤ row.getD (k + 1) 0

instance : DecidablePred RowMono := fun row =>
  Nat.decidableBallLT (row.length - 1) (fun k _ => row.getD k 0 ≤ row.getD (k + 1) 0)

lemma rowMono_le {row : List ℚ} (h : RowMono row) {a b : ℕ}
    (hab : a ≤ b) (hb : b < row.length) : row.getD a 0 ≤ row.getD b 0 := by
  revert hb
  induction b, hab using Nat.le_induction with
  | base => exact fun _ => le_rfl
  | succ n hn ih =>
    intro hb
    exact le_trans (ih (by omega)) (h n (by omega))

lemma binsLT : ∀ k, k < 11 → H2H_OPS_BINS.getD k 0 < H2H_OPS_BINS.getD (k + 1) 0 := by
  intro k hk
  interval_cases k <;> norm_num [H2H_OPS_BINS]

/-- `notBetween`: failing a bin test while the lower edge is satisfied means
the value lies strictly above the upper edge. -/
lemma notBetween {x lo hi : ℚ} (h : ¬(lo ≤ x ∧ x ≤ hi)) (hlo : lo ≤ x) : hi < x := by
  rcases not_and_or.mp h with h1 | h1
  · exact absurd hlo h1
  · exact lt_of_not_le h1

/-- Characterisation of the bin search for a value in the bin range: the
found bin brackets the value, is at most 10, and every earlier bin's upper
edge lies strictly below the value. -/
lemma findBin_spec (x : ℚ) (hlo : 0.2 ≤ x) (hhi : x ≤ 2.0) :
    H2H_OPS_BINS.getD (findBin x) 0 ≤ x ∧ x ≤ H2H_OPS_BINS.getD (findBin x + 1) 0 ∧
    findBin x ≤ 10 ∧ ∀ k, k < findBin x → H2H_OPS_BINS.getD (k + 1) 0 < x := by
  by_cases h0 : (0.2:ℚ) ≤ x ∧ x ≤ 0.4
  · have e : findBin x = 0 := by
        unfold findBin
        rw [if_pos h0]
    rw [e]
    refine ⟨?_, ?_, by norm_num, ?_⟩
    · show (0.2:ℚ) ≤ x
      exact h0.1
    · show x ≤ (0.4:ℚ)
      exact h0.2
    · intro k hk
      omega
  · have d1 : (0.4:ℚ) < x := notBetween h0 hlo
    by_cases h1 : (0.4:ℚ) ≤ x ∧ x ≤ 0.6
    · have e : findBin x = 1 := by
          unfold findBin
          rw [if_neg h0, if_pos h1]
      rw [e]
      refine ⟨?_, ?_, by norm_num, ?_⟩
      · show (0.4:ℚ) ≤ x
        exact h1.1
      · show x ≤ (0.6:ℚ)
        exact h1.2
      · intro k hk
        interval_cases k
        · show (0.4:ℚ) < x
          exact d1
    · have d2 : (0.6:ℚ) < x := notBetween h1 (by linarith)
      by_cases h2 : (0.6:ℚ) ≤ x ∧ x ≤ 0.7
      · have e : findBin x = 2 := by
            unfold findBin
            rw [if_neg h0, if_neg h1, if_pos h2]
        rw [e]
        refine ⟨?_, ?_, by norm_num, ?_⟩
        · show (0.6:ℚ) ≤ x
          exact h2.1
        · show x ≤ (0.7:ℚ)
          exact h2.2
        · intro k hk
          interval_cases k
          · show (0.4:ℚ) < x
            exact d1
          · show (0.6:ℚ) < x
            exact d2
      · have d3 : (0.7:ℚ) < x := notBetween h2 (by linarith)
        by_cases h3 : (0.7:ℚ) ≤ x ∧ x ≤ 0.8
        · have e : findBin x = 3 := by
              unfold findBin
              rw [if_neg h0, if_neg h1, if_neg h2, if_pos h3]
          rw [e]
          refine ⟨?_, ?_, by norm_num, ?_⟩
          · show (0.7:ℚ) ≤ x
            exact h3.1
          · show x ≤ (0.8:ℚ)
            exact h3.2
          · intro k hk
            interval_cases k
            · show (0.4:ℚ) < x
              exact d1
            · show (0.6:ℚ) < x
              exact d2
            · show (0.7:ℚ) < x
              exact d3
        · have d4 : (0.8:ℚ) < x := notBetween h3 (by linarith)
          by_cases h4 : (0.8:ℚ) ≤ x ∧ x ≤ 0.85
          · have e : findBin x = 4 := by
                unfold findBin
                rw [if_neg h0, if_neg h1, if_neg h2, if_neg h3, if_pos h4]
            rw [e]
            refine ⟨?_, ?_, by norm_num, ?_⟩
            · show (0.8:ℚ) ≤ x
              exact h4.1
            · show x ≤ (0.85:ℚ)
              exact h4.2
            · intro k hk
              interval_cases k
              · show (0.4:ℚ) < x
                exact d1
              · show (0.6:ℚ) < x
                exact d2
              · show (0.7:ℚ) < x
                exact d3
              · show (0.8:ℚ) < x
                exact d4
          · have d5 : (0.85:ℚ) < x := notBetween h4 (by linarith)
            by_cases h5 : (0.85:ℚ) ≤ x ∧ x ≤ 0.9
            · have e : findBin x = 5 := by
                  unfold findBin
                  rw [if_neg h0, if_neg h1, if_neg h2, if_neg h3, if_neg h4, if_pos h5]
              rw [e]
              refine ⟨?_, ?_, by norm_num, ?_⟩
              · show (0.85:ℚ) ≤ x
                exact h5.1
              · show x ≤ (0.9:ℚ)
                exact h5.2
              · intro k hk
                interval_cases k
                · show (0.4:ℚ) < x
                  exact d1
                · show (0.6:ℚ) < x
                  exact d2
                · show (0.7:ℚ) < x
                  exact d3
                · show (0.8:ℚ) < x
                  exact d4
                · show (0.85:ℚ) < x
                  exact d5
            · have d6 : (0.9:ℚ) < x := notBetween h5 (by linarith)
              by_cases h6 : (0.9:ℚ) ≤ x ∧ x ≤ 0.95
              · have e : findBin x = 6 := by
                    unfold findBin
                    rw [if_neg h0, if_neg h1, if_neg h2, if_neg h3, if_neg h4, if_neg h5, if_pos h6]
                rw [e]
                refine ⟨?_, ?_, by norm_num, ?_⟩
                · show (0.9:ℚ) ≤ x
                  exact h6.1
                · show x ≤ (0.95:ℚ)
                  exact h6.2
                · intro k hk
                  interval_cases k
                  · show (0.4:ℚ) < x
                    exact d1
                  · show (0.6:ℚ) < x
                    exact d2
                  · show (0.7:ℚ) < x
                    exact d3
                  · show (0.8:ℚ) < x
                    exact d4
                  · show (0.85:ℚ) < x
                    exact d5
                  · show (0.9:ℚ) < x
                    exact d6
              · have d7 : (0.95:ℚ) < x := notBetween h6 (by linarith)
                by_cases h7 : (0.95:ℚ) ≤ x ∧ x ≤ 1.0
                · have e : findBin x = 7 := by
                      unfold findBin
                      rw [if_neg h0, if_neg h1, if_neg h2, if_neg h3, if_neg h4, if_neg h5, if_neg h6, if_pos h7]
                  rw [e]
                  refine ⟨?_, ?_, by norm_num, ?_⟩
                  · show (0.95:ℚ) ≤ x
                    exact h7.1
                  · show x ≤ (1.0:ℚ)
                    exact h7.2
                  · intro k hk
                    interval_cases k
                    · show (0.4:ℚ) < x
                      exact d1
                    · show (0.6:ℚ) < x
                      exact d2
                    · show (0.7:ℚ) < x
                      exact d3
                    · show (0.8:ℚ) < x
                      exact d4
                    · show (0.85:ℚ) < x
                      exact d5
                    · show (0.9:ℚ) < x
                      exact d6
                    · show (0.95:ℚ) < x
                      exact d7
                · have d8 : (1.0:ℚ) < x := notBetween h7 (by linarith)
                  by_cases h8 : (1.0:ℚ) ≤ x ∧ x ≤ 1.2
                  · have e : findBin x = 8 := by
                        unfold findBin
                        rw [if_neg h0, if_neg h1, if_neg h2, if_neg h3, if_neg h4, if_neg h5, if_neg h6, if_neg h7, if_pos h8]
                    rw [e]
                    refine ⟨?_, ?_, by norm_num, ?_⟩
                    · show (1.0:ℚ) ≤ x
                      exact h8.1
                    · show x ≤ (1.2:ℚ)
                      exact h8.2
                    · intro k hk
                      interval_cases k
                      · show (0.4:ℚ) < x
                        exact d1
                      · show (0.6:ℚ) < x
                        exact d2
                      · show (0.7:ℚ) < x
                        exact d3
                      · show (0.8:ℚ) < x
                        exact d4
                      · show (0.85:ℚ) < x
                        exact d5
                      · show (0.9:ℚ) < x
                        exact d6
                      · show (0.95:ℚ) < x
                        exact d7
                      · show (1.0:ℚ) < x
                        exact d8
                  · have d9 : (1.2:ℚ) < x := notBetween h8 (by linarith)
                    by_cases h9 : (1.2:ℚ) ≤ x ∧ x ≤ 1.4
                    · have e : findBin x = 9 := by
                          unfold findBin
                          rw [if_neg h0, if_neg h1, if_neg h2, if_neg h3, if_neg h4, if_neg h5, if_neg h6, if_neg h7, if_neg h8, if_pos h9]
                      rw [e]
                      refine ⟨?_, ?_, by norm_num, ?_⟩
                      · show (1.2:ℚ) ≤ x
                        exact h9.1
                      · show x ≤ (1.4:ℚ)
                        exact h9.2
                      · intro k hk
                        interval_cases k
                        · show (0.4:ℚ) < x
                          exact d1
                        · show (0.6:ℚ) < x
                          exact d2
                        · show (0.7:ℚ) < x
                          exact d3
                        · show (0.8:ℚ) < x
                          exact d4
                        · show (0.85:ℚ) < x
                          exact d5
                        · show (0.9:ℚ) < x
                          exact d6
                        · show (0.95:ℚ) < x
                          exact d7
                        · show (1.0:ℚ) < x
                          exact d8
                        · show (1.2:ℚ) < x
                          exact d9
                    · have d10 : (1.4:ℚ) < x := notBetween h9 (by linarith)
                      by_cases h10 : (1.4:ℚ) ≤ x ∧ x ≤ 2.0
                      · have e : findBin x = 10 := by
                            unfold findBin
                            rw [if_neg h0, if_neg h1, if_neg h2, if_neg h3, if_neg h4, if_neg h5, if_neg h6, if_neg h7, if_neg h8, if_neg h9, if_pos h10]
                        rw [e]
                        refine ⟨?_, ?_, by norm_num, ?_⟩
                        · show (1.4:ℚ) ≤ x
                          exact h10.1
                        · show x ≤ (2.0:ℚ)
                          exact h10.2
                        · intro k hk
                          interval_cases k
                          · show (0.4:ℚ) < x
                            exact d1
                          · show (0.6:ℚ) < x
                            exact d2
                          · show (0.7:ℚ) < x
                            exact d3
                          · show (0.8:ℚ) < x
                            exact d4
                          · show (0.85:ℚ) < x
                            exact d5
                          · show (0.9:ℚ) < x
                            exact d6
                          · show (0.95:ℚ) < x
                            exact d7
                          · show (1.0:ℚ) < x
                            exact d8
                          · show (1.2:ℚ) < x
                            exact d9
                          · show (1.4:ℚ) < x
                            exact d10
                      · have d11 : (2.0:ℚ) < x := notBetween h10 (by linarith)
                        exact absurd hhi (not_le.mpr d11)

lemma findBin_mono {x y : ℚ} (hx0 : 0.2 ≤ x) (hy2 : y ≤ 2.0) (hxy : x ≤ y) :
    findBin x ≤ findBin y := by
  by_contra hcon
  push_neg at hcon
  have hx := findBin_spec x hx0 (le_trans hxy hy2)
  have hy := findBin_spec y (le_trans hx0 hxy) hy2
  have h1 := hx.2.2.2 (findBin y) hcon
  have h2 := hy.2.1
  have h3 : H2H_OPS_BINS.getD (findBin y + 1) 0 < y := lt_of_lt_of_le h1 hxy
  linarith

/-- For a value in the bin range, the interpolated row value lies between
the bracketing row cells (when the lower cell is at most the upper one). -/
lemma rowValueAt_between (row : List ℚ) (x : ℚ) (hlo : 0.2 ≤ x) (hhi : x ≤ 2.0)
    (hlen : row.length = 12)
    (hm : row.getD (findBin x) 0 ≤ row.getD (findBin x + 1) 0) :
    row.getD (findBin x) 0 ≤ rowValueAt row x ∧
      rowValueAt row x ≤ row.getD (findBin x + 1) 0 := by
  obtain ⟨hbx, hxb, hle10, -⟩ := findBin_spec x hlo hhi
  have hmin1 : min (findBin x + 1) 11 = findBin x + 1 := Nat.min_eq_left (by omega)
  have hmin2 : min (findBin x + 1) (row.length - 1) = findBin x + 1 := by
    rw [hlen]; exact Nat.min_eq_left (by omega)
  have hbins : H2H_OPS_BINS.getD (findBin x) 0 < H2H_OPS_BINS.getD (findBin x + 1) 0 :=
    binsLT _ (by omega)
  simp only [rowValueAt]
  rw [hmin1, hmin2, if_pos hbins]
  set a := row.getD (findBin x) 0
  set bb := row.getD (findBin x + 1) 0
  set lo := H2H_OPS_BINS.getD (findBin x) 0
  set hi := H2H_OPS_BINS.getD (findBin x + 1) 0
  have hu0 : 0 ≤ (x - lo) / (hi - lo) := div_nonneg (by linarith) (by linarith)
  have hu1 : (x - lo) / (hi - lo) ≤ 1 := by
    rw [div_le_one (by linarith)]; linarith
  constructor
  · nlinarith
  · nlinarith

/-- Monotonicity of the interpolated row value over a non-decreasing row. -/
lemma rowValueAt_mono (row : List ℚ) (hlen : row.length = 12) (hmono : RowMono row)
    {x y : ℚ} (hx0 : 0.2 ≤ x) (hy2 : y ≤ 2.0) (hxy : x ≤ y) :
    rowValueAt row x ≤ rowValueAt row y := by
  have hx2 : x ≤ 2.0 := le_trans hxy hy2
  have hy0 : 0.2 ≤ y := le_trans hx0 hxy
  have hcell : ∀ z : ℚ, 0.2 ≤ z → z ≤ 2.0 →
      row.getD (findBin z) 0 ≤ row.getD (findBin z + 1) 0 := by
    intro z h1 h2
    have := (findBin_spec z h1 h2).2.2.1
    exact hmono (findBin z) (by omega)
  rcases Nat.lt_or_ge (findBin x) (findBin y) with hlt | hge
  · have h1 := (rowValueAt_between row x hx0 hx2 hlen (hcell x hx0 hx2)).2
    have h2 := (rowValueAt_between row y hy0 hy2 hlen (hcell y hy0 hy2)).1
    have h3 : row.getD (findBin x + 1) 0 ≤ row.getD (findBin y) 0 := by
      have := (findBin_spec y hy0 hy2).2.2.1
      exact rowMono_le hmono hlt (by omega)
    linarith
  · have heq : findBin x = findBin y :=
      le_antisymm (findBin_mono hx0 hy2 hxy) hge
    obtain ⟨hbx, hxb, hle10, -⟩ := findBin_spec x hx0 hx2
    have hmin1 : min (findBin x + 1) 11 = findBin x + 1 := Nat.min_eq_left (by omega)
    have hmin2 : min (findBin x + 1) (row.length - 1) = findBin x + 1 := by
      rw [hlen]; exact Nat.min_eq_left (by omega)
    have hbins : H2H_OPS_BINS.getD (findBin x) 0 < H2H_OPS_BINS.getD (findBin x + 1) 0 :=
      binsLT _ (by omega)
    have hm := hcell x hx0 hx2
    simp only [rowValueAt]
    rw [← heq, hmin1, hmin2, if_pos hbins]
    set a := row.getD (findBin x) 0
    set bb := row.getD (findBin x + 1) 0
    set lo := H2H_OPS_BINS.getD (findBin x) 0
    set hi := H2H_OPS_BINS.getD (findBin x + 1) 0
    have hdiv : (x - lo) / (hi - lo) ≤ (y - lo) / (hi - lo) := by
      have h2 : lo < hi := hbins
      exact (div_le_div_iff_of_pos_right (by linarith)).mpr (by linarith)
    rw [if_pos hbins]
    nlinarith

lemma clamp_mono {a b lo hi : ℚ} (h : a ≤ b) : clamp a lo hi ≤ clamp b lo hi :=
  min_le_min (le_refl _) (max_le_max (le_refl _) h)

lemma h2hRowIndex_lt (ab : Option ℚ) : h2hRowIndex ab < 25 := by
  unfold h2hRowIndex
  have h1 : min (25 : ℤ) (max 1 (jsRound (ab.getD 0))) ≤ 25 := min_le_left _ _
  have h2 : (1 : ℤ) ≤ min (25 : ℤ) (max 1 (jsRound (ab.getD 0))) :=
    le_min (by norm_num) (le_max_left _ _)
  omega

lemma gridRows_length : ∀ i, i < 25 → (H2H_GRID_POINTS.getD i []).length = 12 := by decide

lemma gridRows_mono : ∀ i, i < 25 → i ≠ 3 → RowMono (H2H_GRID_POINTS.getD i []) := by
  intro i h1 h2
  interval_cases i <;> first
    | exact absurd rfl h2
    | decide

/-- C3 amended: the grid share is bounded to `[0, 0.30]` for all inputs, and
for every fixed at-bats value whose calibration row is not the (decreasing)
row for 4 at-bats, the share is monotone non-decreasing in OPS. -/
theorem c3_amended :
    (∀ ab ops : Option ℚ, 0 ≤ h2hWeightFromGrid ab ops ∧ h2hWeightFromGrid ab ops ≤ 0.30) ∧
    (∀ (ab : Option ℚ) (ops1 ops2 : ℚ), h2hRowIndex ab ≠ 3 → ops1 ≤ ops2 →
      h2hWeightFromGrid ab (some ops1) ≤ h2hWeightFromGrid ab (some ops2)) := by
  constructor
  · intro ab ops
    exact ⟨le_clamp _ _ _ (by norm_num), clamp_le _ _ _⟩
  · intro ab o1 o2 hrow h12
    have hlt := h2hRowIndex_lt ab
    have hlen := gridRows_length _ hlt
    have hmono := gridRows_mono _ hlt hrow
    simp only [h2hWeightFromGrid, Option.getD_some]
    have hx0 : (0.2:ℚ) ≤ clamp o1 0.2 2.0 := le_clamp _ _ _ (by norm_num)
    have hy2 : clamp o2 0.2 2.0 ≤ 2.0 := clamp_le _ _ _
    have hxy : clamp o1 0.2 2.0 ≤ clamp o2 0.2 2.0 := clamp_mono h12
    have hmain := rowValueAt_mono _ hlen hmono hx0 hy2 hxy
    exact clamp_mono (by linarith)

/-- Witness: monotonicity applied at 2 at-bats between OPS 0.5 and 0.6. -/
theorem c3_amended_witness :
    h2hWeightFromGrid (some 2) (some (1/2)) ≤ h2hWeightFromGrid (some 2) (some (3/5)) := by
  refine c3_amended.2 (some 2) (1/2) (3/5) ?_ (by norm_num)
  have e : h2hRowIndex (some 2) = 1 := by norm_num [h2hRowIndex, jsRound] <;> decide
  rw [e]
  omega

/-! ## C7 and C8: the lineup-slot projector -/

lemma chooseStep_cases (latest : Option ℕ) (acc : Option ℕ × ℤ) (p : ℕ × ℕ) :
    acc.2 ≤ (chooseStep latest acc p).2 ∧
    (p.2 : ℤ) ≤ (chooseStep latest acc p).2 ∧
    (chooseStep latest acc p = acc ∨
      ((chooseStep latest acc p).1 = some p.1 ∧ (chooseStep latest acc p).2 = (p.2 : ℤ))) ∧
    ((chooseStep latest acc p).2 = acc.2 ∨ (chooseStep latest acc p).2 = (p.2 : ℤ)) := by
  unfold chooseStep
  split_ifs with h1 h2
  · exact ⟨le_of_lt h1, le_rfl, Or.inr ⟨rfl, rfl⟩, Or.inr rfl⟩
  · exact ⟨le_rfl, le_of_eq h2.1, Or.inr ⟨rfl, h2.1.symm⟩, Or.inl rfl⟩
  · exact ⟨le_rfl, le_of_not_lt h1, Or.inl rfl, Or.inl rfl⟩

/-- Invariant of the `chooseProjectedOrder` fold: the accumulator's count
never decreases, ends at least as large as every entry's count, and the
final state is the initial one or witnesses some entry. -/
lemma foldl_chooseStep_spec (latest : Option ℕ) :
    ∀ (counts : List (ℕ × ℕ)) (acc : Option ℕ × ℤ),
    (counts.foldl (chooseStep latest) acc = acc ∨
      ∃ p, p ∈ counts ∧ (counts.foldl (chooseStep latest) acc).1 = some p.1 ∧
        (counts.foldl (chooseStep latest) acc).2 = (p.2 : ℤ)) ∧
    acc.2 ≤ (counts.foldl (chooseStep latest) acc).2 ∧
    ∀ q ∈ counts, (q.2 : ℤ) ≤ (counts.foldl (chooseStep latest) acc).2
  | [], acc => ⟨Or.inl rfl, le_rfl, by simp⟩
  | p :: t, acc => by
    obtain ⟨hor, hle, hall⟩ := foldl_chooseStep_spec latest t (chooseStep latest acc p)
    obtain ⟨s1, s2, s3, -⟩ := chooseStep_cases latest acc p
    simp only [List.foldl_cons]
    refine ⟨?_, le_trans s1 hle, ?_⟩
    · rcases hor with h | ⟨q, hq, h1, h2⟩
      · rw [h]
        rcases s3 with h3 | ⟨h3, h4⟩
        · exact Or.inl h3
        · exact Or.inr ⟨p, List.mem_cons_self _ _, h3, h4⟩
      · exact Or.inr ⟨q, List.mem_cons_of_mem _ hq, h1, h2⟩
    · intro q hq
      rcases List.mem_cons.mp hq with h | h
      · rw [h]
        exact le_trans s2 hle
      · exact hall q h

/-- When some entry for the latest slot carries a weakly maximal count, the
fold ends on the latest slot. -/
lemma foldl_chooseStep_latest (ls : ℕ) :
    ∀ (counts : List (ℕ × ℕ)) (acc : Option ℕ × ℤ),
    ((∃ c : ℕ, (ls, c) ∈ counts ∧ (∀ q ∈ counts, (q.2 : ℤ) ≤ (c : ℤ)) ∧ acc.2 ≤ (c : ℤ)) ∨
      (acc.1 = some ls ∧ ∀ q ∈ counts, (q.2 : ℤ) ≤ acc.2)) →
    (counts.foldl (chooseStep (some ls)) acc).1 = some ls
  | [], acc => fun h => by
      rcases h with ⟨c, hc, -, -⟩ | ⟨h1, -⟩
      · exact absurd hc (List.not_mem_nil _)
      · exact h1
  | p :: t, acc => fun h => by
      simp only [List.foldl_cons]
      apply foldl_chooseStep_latest ls t
      rcases h with ⟨c, hc, hmax, hacc⟩ | ⟨h1, hall⟩
      · rcases List.mem_cons.mp hc with heq | hmem
        · unfold chooseStep
          split_ifs with hh1 hh2
          · refine Or.inr ⟨by rw [← heq], fun q hq => ?_⟩
            have := hmax q (List.mem_cons_of_mem _ hq)
            have hp2 : (p.2 : ℤ) = (c : ℤ) := by rw [← heq]
            simpa [hp2] using this
          · refine Or.inr ⟨hh2.2, fun q hq => ?_⟩
            have := hmax q (List.mem_cons_of_mem _ hq)
            have hp2 : (p.2 : ℤ) = (c : ℤ) := by rw [← heq]
            rw [← hh2.1, hp2]
            exact this
          · exfalso
            apply hh2
            have hp2 : (p.2 : ℤ) = (c : ℤ) := by rw [← heq]
            have hple : acc.2 ≤ (p.2 : ℤ) := by rw [hp2]; exact hacc
            have hpge : (p.2 : ℤ) ≤ acc.2 := le_of_not_lt hh1
            exact ⟨le_antisymm hpge hple, by rw [← heq]⟩
        · obtain ⟨-, -, -, s4⟩ := chooseStep_cases (some ls) acc p
          refine Or.inl ⟨c, hmem, fun q hq => hmax q (List.mem_cons_of_mem _ hq), ?_⟩
          rcases s4 with h4 | h4
          · rw [h4]; exact hacc
          · rw [h4]; exact hmax p (List.mem_cons_self _ _)
      · unfold chooseStep
        split_ifs with hh1 hh2
        · exact absurd (hall p (List.mem_cons_self _ _)) (not_le.mpr hh1)
        · exact Or.inr ⟨hh2.2, fun q hq => hall q (List.mem_cons_of_mem _ hq)⟩
        · exact Or.inr ⟨h1, fun q hq => hall q (List.mem_cons_of_mem _ hq)⟩

/-- C7: the projector returns a slot of maximal count; when the latest
observed slot attains the maximal count it is chosen; an empty history
yields `null`; and the spec's concrete examples hold (counts `{3:4, 5:4}`
with latest slot 5 project slot 5; counts `{2:5, 4:2}` project slot 2). -/
theorem c7_projector :
    (∀ latest, chooseProjectedOrder [] latest = none) ∧
    (∀ (counts : List (ℕ × ℕ)) latest, counts ≠ [] →
      ∃ p, p ∈ counts ∧ chooseProjectedOrder counts latest = some p.1 ∧
        ∀ q ∈ counts, q.2 ≤ p.2) ∧
    (∀ (counts : List (ℕ × ℕ)) (ls c : ℕ), (ls, c) ∈ counts →
      (∀ q ∈ counts, q.2 ≤ c) → chooseProjectedOrder counts (some ls) = some ls) ∧
    projectSlot [(1,3),(2,3),(3,3),(4,3),(5,5),(6,5),(7,5),(8,5)] = some 5 ∧
    projectSlot [(1,2),(2,2),(3,2),(4,4),(5,2),(6,4),(7,2)] = some 2 ∧
    projectSlot [] = none := by
  refine ⟨fun _ => rfl, ?_, ?_, by decide, by decide, rfl⟩
  · intro counts latest hne
    obtain ⟨hor, -, hall⟩ := foldl_chooseStep_spec latest counts (none, -1)
    rcases hor with h | ⟨p, hp, h1, h2⟩
    · obtain ⟨q, hq⟩ := List.exists_mem_of_ne_nil counts hne
      have := hall q hq
      rw [h] at this
      exact absurd this (by omega)
    · refine ⟨p, hp, h1, fun q hq => ?_⟩
      have := hall q hq
      rw [h2] at this
      exact_mod_cast this
  · intro counts ls c hmem hmax
    exact foldl_chooseStep_latest ls counts (none, -1)
      (Or.inl ⟨c, hmem, fun q hq => by exact_mod_cast hmax q hq, by omega⟩)

/-- Witness: the tie `{3:4, 5:4}` with latest slot 5 resolves to 5 by the
latest-slot clause of the theorem. -/
theorem c7_projector_witness :
    chooseProjectedOrder [(3,4),(5,4)] (some 5) = some 5 :=
  c7_projector.2.2.1 [(3,4),(5,4)] 5 4 (by decide) (by decide)

/-- C8 counterexample: with counts `{3:4, 5:4, 7:1}` and latest slot 7 (the
final observation, not among the tied slots), the projector keeps the tied
slot encountered first (slot 3), not the one encountered last (slot 5). -/
theorem c8_counterexample :
    projectSlot [(1,3),(2,3),(3,3),(4,3),(5,5),(6,5),(7,5),(8,5),(9,7)] = some 3 ∧
    (some 3 : Option ℕ) ≠ some 5 := by
  constructor
  · decide
  · decide

lemma foldl_max_le_init : ∀ (counts : List (ℕ × ℕ)) (a : ℤ),
    a ≤ counts.foldl (fun m p => max m (p.2 : ℤ)) a
  | [], _ => le_rfl
  | p :: t, a =>
    le_trans (le_max_left a (p.2 : ℤ)) (foldl_max_le_init t (max a (p.2 : ℤ)))

lemma foldl_max_mem_le : ∀ (counts : List (ℕ × ℕ)) (a : ℤ) (q : ℕ × ℕ), q ∈ counts →
    (q.2 : ℤ) ≤ counts.foldl (fun m p => max m (p.2 : ℤ)) a
  | [], _, q, hq => absurd hq (List.not_mem_nil _)
  | p :: t, a, q, hq => by
    simp only [List.foldl_cons]
    rcases List.mem_cons.mp hq with h | h
    · rw [h]
      exact le_trans (le_max_right a (p.2 : ℤ)) (foldl_max_le_init t _)
    · exact foldl_max_mem_le t _ q h

lemma foldl_max_cases : ∀ (counts : List (ℕ × ℕ)) (a : ℤ),
    counts.foldl (fun m p => max m (p.2 : ℤ)) a = a ∨
      ∃ p ∈ counts, counts.foldl (fun m p => max m (p.2 : ℤ)) a = (p.2 : ℤ)
  | [], _ => Or.inl rfl
  | p :: t, a => by
    simp only [List.foldl_cons]
    rcases foldl_max_cases t (max a (p.2 : ℤ)) with h | ⟨q, hq, h⟩
    · rcases max_choice a (p.2 : ℤ) with hm | hm
      · exact Or.inl (h.trans hm)
      · exact Or.inr ⟨p, List.mem_cons_self _ _, h.trans hm⟩
    · exact Or.inr ⟨q, List.mem_cons_of_mem _ hq, h⟩

lemma le_maxCount (counts : List (ℕ × ℕ)) (q : ℕ × ℕ) (hq : q ∈ counts) :
    (q.2 : ℤ) ≤ maxCount counts :=
  foldl_max_mem_le counts (-1) q hq

lemma maxCount_mem (counts : List (ℕ × ℕ)) (hne : counts ≠ []) :
    ∃ p ∈ counts, (p.2 : ℤ) = maxCount counts := by
  rcases foldl_max_cases counts (-1) with h | ⟨p, hp, h⟩
  · obtain ⟨q, hq⟩ := List.exists_mem_of_ne_nil counts hne
    have := le_maxCount counts q hq
    rw [maxCount] at this
    rw [h] at this
    exact absurd this (by omega)
  · exact ⟨p, hp, h.symm⟩

/-- When the latest slot never attains the running maximum, the projector
fold coincides with the latest-free first-maximum fold. -/
lemma foldl_choose_eq (ls : ℕ) (M : ℤ) :
    ∀ (rem : List (ℕ × ℕ)) (b1 b2 : Option ℕ × ℤ),
    b1.2 = b2.2 → (b1.1 = b2.1 ∨ b1.2 < M) → b1.2 ≤ M →
    (∀ p ∈ rem, p.1 = ls → (p.2 : ℤ) < M) →
    (∀ p ∈ rem, (p.2 : ℤ) ≤ M) →
    (b1.2 < M → ∃ p ∈ rem, (p.2 : ℤ) = M) →
    (rem.foldl (chooseStep (some ls)) b1).1 = (rem.foldl chooseStepF b2).1
  | [], b1, b2 => fun h2eq hor _ _ _ hex => by
      rcases hor with h | h
      · exact h
      · obtain ⟨p, hp, -⟩ := hex h
        exact absurd hp (List.not_mem_nil _)
  | p :: t, b1, b2 => fun h2eq hor hbM hls hall hex => by
      simp only [List.foldl_cons]
      obtain ⟨s1, s2, -, s4⟩ := chooseStep_cases (some ls) b1 p
      have hc2eq : (chooseStep (some ls) b1 p).2 = (chooseStepF b2 p).2 := by
        unfold chooseStep chooseStepF
        rw [← h2eq]
        split_ifs with hh1 hh2
        · rfl
        · exact h2eq
        · exact h2eq
      have hcM : (chooseStep (some ls) b1 p).2 ≤ M := by
        rcases s4 with h | h
        · rw [h]; exact hbM
        · rw [h]; exact hall p (List.mem_cons_self _ _)
      apply foldl_choose_eq ls M t _ _ hc2eq ?_ hcM
        (fun q hq h => hls q (List.mem_cons_of_mem _ hq) h)
        (fun q hq => hall q (List.mem_cons_of_mem _ hq)) ?_
      · unfold chooseStep chooseStepF
        rw [← h2eq]
        split_ifs with hh1 hh2
        · exact Or.inl rfl
        · refine Or.inr ?_
          show b1.2 < M
          have hpl : p.1 = ls := Option.some.inj hh2.2
          have := hls p (List.mem_cons_self _ _) hpl
          rw [hh2.1] at this
          exact this
        · exact hor
      · intro hc
        have hb1 : b1.2 < M := lt_of_le_of_lt s1 hc
        obtain ⟨q, hq, hqM⟩ := hex hb1
        rcases List.mem_cons.mp hq with h | h
        · exfalso
          rw [h] at hqM
          rw [hqM] at s2
          exact absurd hc (not_lt.mpr s2)
        · exact ⟨q, h, hqM⟩

/-- C8 amended: when no entry of the latest slot reaches the maximal count,
the projector returns the tied slot encountered FIRST in the iteration
order of the per-slot counts (ascending slot), not the one encountered
last; on counts `{3:4, 5:4, 7:1}` with latest slot 7 this is slot 3. -/
theorem c8_amended :
    (∀ (counts : List (ℕ × ℕ)) (ls : ℕ),
      (∀ c : ℕ, (ls, c) ∈ counts → (c : ℤ) < maxCount counts) →
      chooseProjectedOrder counts (some ls) = chooseFirstMax counts) ∧
    chooseFirstMax [(3,4),(5,4),(7,1)] = some 3 := by
  constructor
  · intro counts ls h
    rcases eq_or_ne counts [] with rfl | hne
    · rfl
    · obtain ⟨pm, hpm, hM⟩ := maxCount_mem counts hne
      apply foldl_choose_eq ls (maxCount counts) counts (none, -1) (none, -1) rfl
        (Or.inl rfl) ?_ ?_ (fun q hq => le_maxCount counts q hq) (fun _ => ⟨pm, hpm, hM⟩)
      · show (-1 : ℤ) ≤ maxCount counts
        exact foldl_max_le_init counts (-1)
      · intro p hp hpl
        have : (ls, p.2) = p := by rw [← hpl]
        exact h p.2 (this ▸ hp)
  · decide

/-- Witness: the amended tie-break equality applied on the counterexample
counts, where the latest slot 7 holds count 1 below the maximum 4. -/
theorem c8_amended_witness :
    chooseProjectedOrder [(3,4),(5,4),(7,1)] (some 7) = chooseFirstMax [(3,4),(5,4),(7,1)] := by
  apply c8_amended.1 [(3,4),(5,4),(7,1)] 7
  intro c hc
  have hm : maxCount [(3,4),(5,4),(7,1)] = 4 := by decide
  rw [hm]
  simp only [List.mem_cons, List.not_mem_nil, or_false, Prod.mk.injEq] at hc
  rcases hc with ⟨h1, h2⟩ | ⟨h1, h2⟩ | ⟨h1, h2⟩ <;> omega

/-! ## Bounds on the composite scorer's weights and contributions -/

lemma w_h2h_dyn_mem (b : SignalBundle) : 0 ≤ w_h2h_dyn b ∧ w_h2h_dyn b ≤ 0.30 :=
  ⟨le_clamp _ _ _ (by norm_num), clamp_le _ _ _⟩

lemma w_last7_dyn_mem (sq : ℚ → ℚ) (hsq : SqrtSpec sq) (b : SignalBundle) :
    0.05 ≤ w_last7_dyn sq b ∧ w_last7_dyn sq b ≤ 0.10 := by
  unfold w_last7_dyn
  rcases b.pa_last7 with _ | pa <;> rcases b.ops_last7 with _ | ops <;> dsimp only
  · constructor <;> norm_num
  · constructor <;> norm_num
  · constructor <;> norm_num
  · split_ifs with h
    · have hc := hsq (clamp ((pa - 3) / (20 - 3)) 0 1)
        (le_clamp _ _ _ (by norm_num)) (clamp_le _ _ _)
      constructor <;> nlinarith [hc.1, hc.2]
    · constructor <;> norm_num

lemma fixedSum_mem (b : SignalBundle) : 0.35 ≤ fixedSum b ∧ fixedSum b ≤ 0.65 := by
  have h := w_h2h_dyn_mem b
  unfold fixedSum
  constructor <;> linarith [h.1, h.2]

lemma shrinkSum_mem (sq : ℚ → ℚ) (hsq : SqrtSpec sq) (b : SignalBundle) :
    0.30 ≤ shrinkSum sq b ∧ shrinkSum sq b ≤ 0.35 := by
  have h := w_last7_dyn_mem sq hsq b
  unfold shrinkSum
  constructor <;> linarith [h.1, h.2]

lemma scaleShrink_eq (sq : ℚ → ℚ) (hsq : SqrtSpec sq) (b : SignalBundle) :
    scaleShrink sq b = (1 - fixedSum b) / shrinkSum sq b := by
  have h1 := (shrinkSum_mem sq hsq b).1
  have h2 := (fixedSum_mem b).2
  unfold scaleShrink
  rw [if_pos (by linarith), max_eq_right (by linarith)]

lemma scaleShrink_mul (sq : ℚ → ℚ) (hsq : SqrtSpec sq) (b : SignalBundle) :
    scaleShrink sq b * shrinkSum sq b = 1 - fixedSum b := by
  rw [scaleShrink_eq sq hsq b]
  exact div_mul_cancel₀ _ (by linarith [(shrinkSum_mem sq hsq b).1])

lemma scaleShrink_nonneg (sq : ℚ → ℚ) (hsq : SqrtSpec sq) (b : SignalBundle) :
    0 ≤ scaleShrink sq b := by
  rw [scaleShrink_eq sq hsq b]
  exact div_nonneg (by linarith [(fixedSum_mem b).2]) (by linarith [(shrinkSum_mem sq hsq b).1])

lemma oppNorm_mem (b : SignalBundle) : 0 ≤ oppNorm b ∧ oppNorm b ≤ 1 := by
  unfold oppNorm
  rcases projectedPAFor b.projectedOrder b.opponentIsHome with _ | pa
  · constructor <;> norm_num
  · exact ⟨le_clamp _ _ _ (by norm_num), clamp_le _ _ _⟩

lemma oppShare_mem (b : SignalBundle) : 0.025 ≤ oppShare b ∧ oppShare b ≤ 0.05 := by
  have h := oppNorm_mem b
  unfold oppShare
  constructor <;> nlinarith [h.1, h.2]

lemma cWtb_mem (sq : ℚ → ℚ) (hsq : SqrtSpec sq) (b : SignalBundle) :
    0 ≤ cWtb sq b ∧ cWtb sq b ≤ 0.30 := by
  have h1 := normWTB_mem b.wtb
  have h2 := wtbPAConfidence_mem sq hsq b.season_pa
  unfold cWtb
  constructor <;> nlinarith [h1.1, h1.2, h2.1, h2.2]

lemma cH9side_mem (sq : ℚ → ℚ) (hsq : SqrtSpec sq) (b : SignalBundle) :
    0 ≤ cH9side sq b ∧ cH9side sq b ≤ 0.04 * scaleShrink sq b := by
  have h1 := normH9_mem b.h9_vs_side
  have h2 := scaleShrink_nonneg sq hsq b
  unfold cH9side w_h9_side
  constructor <;> nlinarith [h1.1, h1.2]

lemma cH928_mem (sq : ℚ → ℚ) (hsq : SqrtSpec sq) (b : SignalBundle) :
    0 ≤ cH928 sq b ∧ cH928 sq b ≤ 0.02 * scaleShrink sq b := by
  have h1 := normH9_mem b.h9_last28
  have h2 := scaleShrink_nonneg sq hsq b
  unfold cH928 w_h9_28
  constructor <;> nlinarith [h1.1, h1.2]

lemma cOpsHand_mem (sq : ℚ → ℚ) (hsq : SqrtSpec sq) (b : SignalBundle) :
    0 ≤ cOpsHand sq b ∧ cOpsHand sq b ≤ 0.15 * scaleShrink sq b := by
  have h1 := normOPS_mem b.ops_vs_hand
  have h2 := scaleShrink_nonneg sq hsq b
  unfold cOpsHand w_ops_hand
  constructor <;> nlinarith [h1.1, h1.2]

lemma cOpsSite_mem (sq : ℚ → ℚ) (hsq : SqrtSpec sq) (b : SignalBundle) :
    0 ≤ cOpsSite sq b ∧ cOpsSite sq b ≤ 0.04 * scaleShrink sq b := by
  have h1 := normOPS_mem b.ops_site
  have h2 := scaleShrink_nonneg sq hsq b
  unfold cOpsSite w_ops_site
  constructor <;> nlinarith [h1.1, h1.2]

lemma w_last7_mem (sq : ℚ → ℚ) (hsq : SqrtSpec sq) (b : SignalBundle) :
    0 ≤ w_last7 sq b ∧ w_last7 sq b ≤ 0.10 := by
  have h1 := (w_last7_dyn_mem sq hsq b).1
  have h2 := scaleShrink_nonneg sq hsq b
  unfold w_last7
  exact ⟨le_min (by nlinarith) (by norm_num), min_le_right _ _⟩

lemma cLast7_mem (sq : ℚ → ℚ) (hsq : SqrtSpec sq) (b : SignalBundle) :
    0 ≤ cLast7 sq b ∧ cLast7 sq b ≤ w_last7 sq b := by
  have h1 := normOPS_mem b.ops_last7
  have h2 := w_last7_mem sq hsq b
  unfold cLast7
  constructor <;> nlinarith [h1.1, h1.2, h2.1, h2.2]

/-- The resolved-weight identity: the eight weights sum to 1 minus whatever
the `last7` cap removed. -/
lemma weightsSum_eq (sq : ℚ → ℚ) (hsq : SqrtSpec sq) (b : SignalBundle) :
    weightsSum sq b = 1 - max 0 (w_last7_dyn sq b * scaleShrink sq b - 0.10) := by
  have hmul := scaleShrink_mul sq hsq b
  have hmin : min (w_last7_dyn sq b * scaleShrink sq b) 0.10 =
      w_last7_dyn sq b * scaleShrink sq b - max 0 (w_last7_dyn sq b * scaleShrink sq b - 0.10) := by
    rcases le_total (w_last7_dyn sq b * scaleShrink sq b) 0.10 with h | h
    · rw [min_eq_left h, max_eq_left (by linarith)]
      ring
    · rw [min_eq_right h, max_eq_right (by linarith)]
      ring
  unfold weightsSum w_h9_side w_h9_28 w_ops_hand w_ops_site w_last7
  rw [mul_comm (w_last7_dyn sq b) (scaleShrink sq b)] at hmin ⊢
  rw [hmin]
  unfold shrinkSum at hmul
  unfold fixedSum at hmul
  linarith [hmul]

lemma weightsSum_le_one (sq : ℚ → ℚ) (hsq : SqrtSpec sq) (b : SignalBundle) :
    weightsSum sq b ≤ 1 := by
  rw [weightsSum_eq sq hsq b]
  have := le_max_left (0:ℚ) (w_last7_dyn sq b * scaleShrink sq b - 0.10)
  linarith

lemma denomOthers_eq (sq : ℚ → ℚ) (b : SignalBundle) :
    denomOthers sq b = cWtb sq b + cH9side sq b + cH928 sq b + cOpsHand sq b +
      cOpsSite sq b + cLast7 sq b + oppShare b := by
  unfold denomOthers compOthers
  simp [List.sum_cons]
  ring

lemma denomOthers_ge (sq : ℚ → ℚ) (hsq : SqrtSpec sq) (b : SignalBundle) :
    0.025 ≤ denomOthers sq b := by
  rw [denomOthers_eq]
  linarith [(cWtb_mem sq hsq b).1, (cH9side_mem sq hsq b).1, (cH928_mem sq hsq b).1,
    (cOpsHand_mem sq hsq b).1, (cOpsSite_mem sq hsq b).1, (cLast7_mem sq hsq b).1,
    (oppShare_mem b).1]

lemma scoreRaw_nonneg (sq : ℚ → ℚ) (hsq : SqrtSpec sq) (b : SignalBundle) :
    0 ≤ scoreRaw sq b := by
  unfold scoreRaw
  linarith [denomOthers_ge sq hsq b, (w_h2h_dyn_mem b).1]

/-- Each contribution is at most its weight, so the raw score is bounded by
the resolved-weight sum, hence by 1. -/
lemma scoreRaw_le_one (sq : ℚ → ℚ) (hsq : SqrtSpec sq) (b : SignalBundle) :
    scoreRaw sq b ≤ 1 := by
  have hsum := weightsSum_le_one sq hsq b
  unfold weightsSum at hsum
  unfold scoreRaw
  rw [denomOthers_eq]
  unfold w_h9_side w_h9_28 w_ops_hand w_ops_site at hsum
  linarith [(cWtb_mem sq hsq b).2, (cH9side_mem sq hsq b).2, (cH928_mem sq hsq b).2,
    (cOpsHand_mem sq hsq b).2, (cOpsSite_mem sq hsq b).2, (cLast7_mem sq hsq b).2,
    (oppShare_mem b).2]

/-! ## List and rounding lemmas for the breakdown reconciliation -/

lemma sum_set_int : ∀ (l : List ℤ) (j : ℕ), j < l.length → ∀ a : ℤ,
    (l.set j a).sum = l.sum - l.getD j 0 + a
  | [], j, hj => absurd hj (by simp)
  | x :: t, 0, _ => fun a => by
      simp only [List.set_cons_zero, List.sum_cons, List.getD_cons_zero]
      ring
  | x :: t, j + 1, hj => fun a => by
      simp only [List.set_cons_succ, List.sum_cons, List.getD_cons_succ]
      rw [sum_set_int t j (by simpa using hj) a]
      ring

lemma getD_map_int (f : ℚ → ℤ) : ∀ (l : List ℚ) (j : ℕ), j < l.length →
    (l.map f).getD j 0 = f (l.getD j 0)
  | [], j, hj => absurd hj (by simp)
  | x :: t, 0, _ => rfl
  | x :: t, j + 1, hj => by
      simp only [List.map_cons, List.getD_cons_succ]
      exact getD_map_int f t j (by simpa using hj)

lemma getD_map_rat (f : ℚ → ℚ) : ∀ (l : List ℚ) (j : ℕ), j < l.length →
    (l.map f).getD j 0 = f (l.getD j 0)
  | [], j, hj => absurd hj (by simp)
  | x :: t, 0, _ => rfl
  | x :: t, j + 1, hj => by
      simp only [List.map_cons, List.getD_cons_succ]
      exact getD_map_rat f t j (by simpa using hj)

lemma sum_map_int_cast_le (f : ℚ → ℤ) (g : ℚ → ℚ) : ∀ (l : List ℚ),
    (∀ x ∈ l, (f x : ℚ) ≤ g x) → (((l.map f).sum : ℤ) : ℚ) ≤ (l.map g).sum
  | [], _ => by simp
  | x :: t, h => by
      simp only [List.map_cons, List.sum_cons]
      push_cast
      have h1 := h x (List.mem_cons_self _ _)
      have h2 := sum_map_int_cast_le f g t (fun y hy => h y (List.mem_cons_of_mem _ hy))
      push_cast at h2
      linarith

lemma sum_sub_getD_le (f : ℚ → ℤ) (g : ℚ → ℚ) : ∀ (l : List ℚ) (j : ℕ), j < l.length →
    (∀ x ∈ l, (f x : ℚ) ≤ g x) →
    (((l.map f).sum : ℤ) : ℚ) - (((l.map f).getD j 0 : ℤ) : ℚ) ≤
      (l.map g).sum - (l.map g).getD j 0
  | [], j, hj, _ => absurd hj (by simp)
  | x :: t, 0, _, h => by
      simp only [List.map_cons, List.sum_cons, List.getD_cons_zero]
      push_cast
      have h2 := sum_map_int_cast_le f g t (fun y hy => h y (List.mem_cons_of_mem _ hy))
      push_cast at h2
      linarith
  | x :: t, j + 1, hj, h => by
      simp only [List.map_cons, List.sum_cons, List.getD_cons_succ]
      push_cast
      have h1 := h x (List.mem_cons_self _ _)
      have h2 := sum_sub_getD_le f g t j (by simpa using hj)
        (fun y hy => h y (List.mem_cons_of_mem _ hy))
      push_cast at h2
      linarith

lemma sum_map_add_half : ∀ l : List ℚ,
    (l.map (fun v => v + 1/2)).sum = l.sum + l.length * (1/2)
  | [] => by simp
  | x :: t => by
      simp only [List.map_cons, List.sum_cons, List.length_cons]
      rw [sum_map_add_half t]
      push_cast
      ring

lemma sum_map_double : ∀ l : List ℚ, (l.map (fun v => 2 * v)).sum = 2 * l.sum
  | [] => by simp
  | x :: t => by
      simp only [List.map_cons, List.sum_cons]
      rw [sum_map_double t]
      ring

lemma sum_map_mul_const (a : ℚ) : ∀ l : List ℚ, (l.map (fun c => a * c)).sum = a * l.sum
  | [] => by simp
  | x :: t => by
      simp only [List.map_cons, List.sum_cons]
      rw [sum_map_mul_const a t]
      ring

lemma maxRound_nonneg (v : ℚ) : (0:ℤ) ≤ max 0 (jsRound v) := le_max_left _ _

lemma maxRound_le_half (v : ℚ) (hv : 0 ≤ v) : ((max 0 (jsRound v) : ℤ) : ℚ) ≤ v + 1/2 := by
  rw [max_eq_right (jsRound_nonneg v hv)]
  exact jsRound_le v

lemma maxRound_le_double (v : ℚ) (hv : 0 ≤ v) : ((max 0 (jsRound v) : ℤ) : ℚ) ≤ 2 * v := by
  rw [max_eq_right (jsRound_nonneg v hv)]
  exact jsRound_le_two_mul v hv

/-- Specification of the argmax helper: the result indexes a value of the
list that dominates the accumulator and every listed value. -/
lemma firstMaxIdxAux_spec : ∀ (rest : List ℚ) (acc : ℕ × ℚ) (i : ℕ) (l : List ℚ),
    l.getD acc.1 0 = acc.2 → acc.1 < l.length →
    (∀ k, k < rest.length → rest.getD k 0 = l.getD (i + k) 0) →
    i + rest.length = l.length →
    (l.getD (firstMaxIdxAux rest acc i).1 0 = (firstMaxIdxAux rest acc i).2 ∧
     (firstMaxIdxAux rest acc i).1 < l.length ∧
     acc.2 ≤ (firstMaxIdxAux rest acc i).2 ∧
     ∀ k, k < rest.length → rest.getD k 0 ≤ (firstMaxIdxAux rest acc i).2)
  | [], acc, i, l => fun h1 h2 _ _ => ⟨h1, h2, le_rfl, fun k hk => absurd hk (by simp)⟩
  | v :: r, acc, i, l => fun h1 h2 halign hlen => by
      have hv : l.getD i 0 = v := by
        have := halign 0 (by simp)
        simpa using this.symm
      have hil : i < l.length := by
        simp only [List.length_cons] at hlen
        omega
      have halign2 : ∀ k, k < r.length → r.getD k 0 = l.getD (i + 1 + k) 0 := by
        intro k hk
        have := halign (k + 1) (by simpa using Nat.succ_lt_succ hk)
        simpa [Nat.add_assoc, Nat.add_comm 1 k] using this
      have hlen2 : i + 1 + r.length = l.length := by
        simp only [List.length_cons] at hlen
        omega
      unfold firstMaxIdxAux
      split_ifs with hlt
      · obtain ⟨c1, c2, c3, c4⟩ := firstMaxIdxAux_spec r (i, v) (i + 1) l hv hil halign2 hlen2
        refine ⟨c1, c2, le_trans (le_of_lt hlt) c3, fun k hk => ?_⟩
        rcases k with _ | k
        · simpa using c3
        · have := c4 k (by simpa using hk)
          simpa using this
      · obtain ⟨c1, c2, c3, c4⟩ := firstMaxIdxAux_spec r acc (i + 1) l h1 h2 halign2 hlen2
        refine ⟨c1, c2, c3, fun k hk => ?_⟩
        rcases k with _ | k
        · have hle : v ≤ acc.2 := le_of_not_lt hlt
          simpa using le_trans hle c3
        · have := c4 k (by simpa using hk)
          simpa using this

/-- The first-maximum index is in range and indexes a maximal value. -/
lemma firstMaxIdx_spec (l : List ℚ) (hne : l ≠ []) :
    firstMaxIdx l < l.length ∧ ∀ k, k < l.length → l.getD k 0 ≤ l.getD (firstMaxIdx l) 0 := by
  rcases l with _ | ⟨v, rest⟩
  · exact absurd rfl hne
  · have halign : ∀ k, k < rest.length → rest.getD k 0 = (v :: rest).getD (1 + k) 0 := by
      intro k hk
      rw [Nat.add_comm]
      rfl
    obtain ⟨c1, c2, c3, c4⟩ := firstMaxIdxAux_spec rest (0, v) 1 (v :: rest)
      rfl (by simp) halign (by simp [Nat.add_comm])
    refine ⟨c2, fun k hk => ?_⟩
    show (v :: rest).getD k 0 ≤ (v :: rest).getD (firstMaxIdx (v :: rest)) 0
    have hres : (v :: rest).getD (firstMaxIdx (v :: rest)) 0 =
        (firstMaxIdxAux rest (0, v) 1).2 := c1
    rw [hres]
    rcases k with _ | k
    · simpa using c3
    · have := c4 k (by simpa using hk)
      simpa using this

/-! ## The breakdown reconciliation always balances -/

lemma compOthers_nonneg (sq : ℚ → ℚ) (hsq : SqrtSpec sq) (b : SignalBundle) :
    ∀ c ∈ compOthers sq b, 0 ≤ c := by
  intro c hc
  simp only [compOthers, List.mem_cons, List.not_mem_nil, or_false] at hc
  rcases hc with rfl | rfl | rfl | rfl | rfl | rfl | rfl
  · exact (cWtb_mem sq hsq b).1
  · exact (cH9side_mem sq hsq b).1
  · exact (cH928_mem sq hsq b).1
  · exact (cOpsHand_mem sq hsq b).1
  · exact (cOpsSite_mem sq hsq b).1
  · exact (cLast7_mem sq hsq b).1
  · exact le_trans (by norm_num) (oppShare_mem b).1

lemma scaledScore_eq (sq : ℚ → ℚ) (hsq : SqrtSpec sq) (b : SignalBundle) :
    scaledScore sq b = jsRound (scoreRaw sq b * 100) ∧
    3 ≤ scaledScore sq b ∧ scaledScore sq b ≤ 100 := by
  have hsr0 := scoreRaw_nonneg sq hsq b
  have hsr1 := scoreRaw_le_one sq hsq b
  have hD := denomOthers_ge sq hsq b
  have hsrD : 1/40 ≤ scoreRaw sq b := by
    unfold scoreRaw
    linarith [(w_h2h_dyn_mem b).1]
  have hclamp : clamp (scoreRaw sq b) 0 1 = scoreRaw sq b := clamp_eq_self _ _ _ hsr0 hsr1
  have hj3 : (3:ℤ) ≤ jsRound (scoreRaw sq b * 100) := by
    rw [jsRound, Int.le_floor]
    push_cast
    linarith
  have hj100 : jsRound (scoreRaw sq b * 100) ≤ 100 := by
    have := jsRound_le (scoreRaw sq b * 100)
    by_contra hcon
    push_neg at hcon
    have : (101:ℚ) ≤ (jsRound (scoreRaw sq b * 100) : ℚ) := by exact_mod_cast hcon
    linarith
  have heq : scaledScore sq b = jsRound (scoreRaw sq b * 100) := by
    unfold scaledScore
    rw [hclamp]
    exact max_eq_right (by linarith [hj3])
  exact ⟨heq, by rw [heq]; exact hj3, by rw [heq]; exact hj100⟩

/-- The score minus the pinned h2h points is at least 2 and exceeds
`100 * denomOthers - 1`. -/
lemma remainingPts_facts (sq : ℚ → ℚ) (hsq : SqrtSpec sq) (b : SignalBundle) :
    remainingPts sq b = scaledScore sq b - absH2H b ∧
    2 ≤ remainingPts sq b ∧
    denomOthers sq b * 100 < (remainingPts sq b : ℤ) + 1 := by
  obtain ⟨hS, -, -⟩ := scaledScore_eq sq hsq b
  have hD := denomOthers_ge sq hsq b
  have hfloor_add : ∀ x y : ℚ, ⌊x⌋ + ⌊y⌋ ≤ ⌊x + y⌋ := fun x y =>
    Int.le_floor.mpr (by push_cast; linarith [Int.floor_le x, Int.floor_le y])
  have hsplit : scoreRaw sq b * 100 + 1/2 =
      denomOthers sq b * 100 + (w_h2h_dyn b * 100 + 1/2) := by
    unfold scoreRaw
    ring
  have hSH : 2 ≤ scaledScore sq b - absH2H b := by
    rw [hS]
    unfold absH2H jsRound
    rw [hsplit]
    have h2 := hfloor_add (denomOthers sq b * 100) (w_h2h_dyn b * 100 + 1/2)
    have h3 : (2:ℤ) ≤ ⌊denomOthers sq b * 100⌋ := Int.le_floor.mpr (by push_cast; linarith)
    linarith
  have hR : remainingPts sq b = scaledScore sq b - absH2H b :=
    max_eq_right (by linarith)
  refine ⟨hR, by rw [hR]; exact hSH, ?_⟩
  rw [hR, hS]
  unfold absH2H
  push_cast
  have l1 : scoreRaw sq b * 100 + 1/2 - 1 < (jsRound (scoreRaw sq b * 100) : ℚ) := by
    have := lt_jsRound (scoreRaw sq b * 100)
    linarith
  have l2 : (jsRound (w_h2h_dyn b * 100) : ℚ) ≤ w_h2h_dyn b * 100 + 1/2 := jsRound_le _
  have hsr : scoreRaw sq b = denomOthers sq b + w_h2h_dyn b := rfl
  linarith

/-- The adjusted non-h2h breakdown entries always sum exactly to the
remaining points budget: the drift fix on the largest contribution never
hits its floor at 0. -/
lemma fixedOthers_sum (sq : ℚ → ℚ) (hsq : SqrtSpec sq) (b : SignalBundle) :
    (fixedOthers sq b).sum = remainingPts sq b := by
  obtain ⟨hR, hR2, hDR⟩ := remainingPts_facts sq hsq b
  have hD := denomOthers_ge sq hsq b
  have hDpos : 0 < denomOthers sq b := by linarith
  have hnn := compOthers_nonneg sq hsq b
  have hlen : (compOthers sq b).length = 7 := rfl
  have hne : compOthers sq b ≠ [] := by
    unfold compOthers
    simp
  obtain ⟨hjlt, hjmax⟩ := firstMaxIdx_spec (compOthers sq b) hne
  set j := firstMaxIdx (compOthers sq b) with hj
  set R := remainingPts sq b with hRdef
  set D := denomOthers sq b with hDdef
  set cs := compOthers sq b with hcs
  set g : ℚ → ℚ := fun c => (R : ℚ) * (c / D) with hg
  set vs : List ℚ := cs.map g with hvs
  have hjlt7 : j < 7 := by rw [← hlen]; exact hjlt
  have hvs_len : vs.length = 7 := by rw [hvs, List.length_map]; exact hlen
  have hvs_sum : vs.sum = (R : ℚ) := by
    rw [hvs]
    have hmc : cs.map g = cs.map (fun c => ((R : ℚ) / D) * c) := by
      apply List.map_congr_left
      intro c _
      rw [hg]
      ring
    rw [hmc, sum_map_mul_const]
    have hsum : cs.sum = D := rfl
    rw [hsum]
    field_simp
  have hvs_nonneg : ∀ v ∈ vs, 0 ≤ v := by
    rw [hvs]
    intro v hv
    obtain ⟨c, hc, rfl⟩ := List.mem_map.mp hv
    rw [hg]
    have hR0 : (0:ℚ) ≤ (R:ℚ) := by exact_mod_cast le_trans (by norm_num) hR2
    exact mul_nonneg hR0 (div_nonneg (hnn c hc) (le_of_lt hDpos))
  have hos : scaledOthers sq b = vs.map (fun v => max 0 (jsRound v)) := by
    rw [hvs, List.map_map]
    rfl
  have hos_len : (scaledOthers sq b).length = 7 := by rw [hos, List.length_map, hvs_len]
  have hjvs : j < vs.length := by rw [hvs_len]; exact hjlt7
  have hvj : vs.getD j 0 = g (cs.getD j 0) := getD_map_rat g cs j hjlt
  have hv6 : vs.getD 6 0 = g (cs.getD 6 0) := getD_map_rat g cs 6 (by rw [hlen]; omega)
  have hc6 : cs.getD 6 0 = oppShare b := rfl
  have hcj6 : cs.getD 6 0 ≤ cs.getD j 0 := hjmax 6 (by rw [hlen]; omega)
  have hopp := (oppShare_mem b).1
  have hRQ : (2:ℚ) ≤ (R:ℚ) := by exact_mod_cast hR2
  have hDRQ : D * 100 < (R:ℚ) + 1 := by exact_mod_cast hDR
  have hvopp : (5/2) * (R:ℚ) < vs.getD 6 0 * ((R:ℚ) + 1) := by
    rw [hv6, hc6, hg]
    have h1 : (R:ℚ) * (oppShare b / D) * D = (R:ℚ) * oppShare b := by
      field_simp
    have h2 : (1/40 : ℚ) * (R:ℚ) ≤ (R:ℚ) * oppShare b := by nlinarith
    have h3 : 0 < (R:ℚ) * (oppShare b / D) := by
      apply mul_pos (by linarith)
      exact div_pos (by linarith) hDpos
    nlinarith
  have hvj_ge : vs.getD 6 0 ≤ vs.getD j 0 := by
    rw [hv6, hvj, hg]
    have hR0 : (0:ℚ) ≤ (R:ℚ) := by linarith
    exact mul_le_mul_of_nonneg_left
      ((div_le_div_iff_of_pos_right hDpos).mpr hcj6) hR0
  -- the two bounds on the rounded shares without the argmax entry
  have hsum_half := sum_sub_getD_le (fun v => max 0 (jsRound v)) (fun v => v + 1/2) vs j hjvs
    (fun x hx => maxRound_le_half x (hvs_nonneg x hx))
  have hsum_dbl := sum_sub_getD_le (fun v => max 0 (jsRound v)) (fun v => 2 * v) vs j hjvs
    (fun x hx => maxRound_le_double x (hvs_nonneg x hx))
  rw [← hos, sum_map_add_half, getD_map_rat _ vs j hjvs, hvs_sum, hvs_len] at hsum_half
  rw [← hos, sum_map_double, getD_map_rat _ vs j hjvs, hvs_sum] at hsum_dbl
  -- the adjusted argmax entry never goes negative: K ≤ R
  have hKR : (scaledOthers sq b).sum - (scaledOthers sq b).getD j 0 ≤ R := by
    have hKQ : (((scaledOthers sq b).sum : ℤ) : ℚ) - (((scaledOthers sq b).getD j 0 : ℤ) : ℚ) <
        (R:ℚ) + 1 := by
      rcases le_or_lt (vs.getD j 0) 2 with hv2 | hv2
      · have hA : (5/2) * (R:ℚ) < vs.getD j 0 * ((R:ℚ) + 1) :=
          lt_of_lt_of_le hvopp (mul_le_mul_of_nonneg_right hvj_ge (by linarith))
        have hR4 : (R:ℚ) < 4 := by nlinarith
        have hR3 : (R:ℚ) ≤ 3 := by
          have h4 : R < 4 := by exact_mod_cast hR4
          exact_mod_cast Int.lt_add_one_iff.mp (by omega)
        have h2A : (R:ℚ) - 1 < 2 * vs.getD j 0 := by nlinarith
        linarith [hsum_dbl]
      · push_cast
        push_cast at hsum_half
        linarith [hsum_half]
    have : (scaledOthers sq b).sum - (scaledOthers sq b).getD j 0 < R + 1 := by
      exact_mod_cast hKQ
    omega
  have hjos : j < (scaledOthers sq b).length := by rw [hos_len]; exact hjlt7
  unfold fixedOthers
  split_ifs with hdelta
  · unfold delta at hdelta
    rw [hRdef]
    omega
  · rw [← hj, sum_set_int _ j hjos]
    have h0 : 0 ≤ (scaledOthers sq b).getD j 0 + delta sq b := by
      unfold delta
      rw [hRdef] at hKR
      omega
    rw [max_eq_right h0]
    unfold delta
    rw [hRdef] at hKR ⊢
    omega


/-! ## C1, C2, C10: score range, balanced breakdown, pinned h2h entry -/

/-- C1: for every signal bundle the final score is an integer in `[1, 100]`
computed as `max(1, round(clamp(scoreRaw, 0, 1) * 100))`, and the values of
the score breakdown sum exactly to that score. -/
theorem c1_score_and_breakdown :
    ∀ sq : ℚ → ℚ, SqrtSpec sq → ∀ b : SignalBundle,
    (1 ≤ scaledScore sq b ∧ scaledScore sq b ≤ 100) ∧
    scaledScore sq b = max 1 (jsRound (clamp (scoreRaw sq b) 0 1 * 100)) ∧
    breakdownSum sq b = scaledScore sq b := by
  intro sq hsq b
  obtain ⟨hS, h3, h100⟩ := scaledScore_eq sq hsq b
  refine ⟨⟨by omega, h100⟩, rfl, ?_⟩
  obtain ⟨hR, hR2, -⟩ := remainingPts_facts sq hsq b
  have hD := denomOthers_ge sq hsq b
  unfold breakdownSum breakdownList
  rw [if_pos (by linarith : (0:ℚ) < denomOthers sq b)]
  rw [List.sum_append, fixedOthers_sum sq hsq b]
  simp only [List.sum_cons, List.sum_nil, add_zero]
  omega

/-- Witness: the theorem instantiated at the identity square root and the
all-missing bundle. -/
theorem c1_score_and_breakdown_witness :
    (1 ≤ scaledScore id bundleMissing ∧ scaledScore id bundleMissing ≤ 100) ∧
    scaledScore id bundleMissing =
      max 1 (jsRound (clamp (scoreRaw id bundleMissing) 0 1 * 100)) ∧
    breakdownSum id bundleMissing = scaledScore id bundleMissing :=
  c1_score_and_breakdown id (fun _ h1 h2 => ⟨h1, h2⟩) bundleMissing

/-- C2: the h2h entry of the breakdown is always `round(h2hShare * 100)`
for the dynamic grid share, and it is the final entry of the breakdown. -/
theorem c2_breakdown_h2h_pinned :
    ∀ sq : ℚ → ℚ, SqrtSpec sq → ∀ b : SignalBundle,
    breakdownH2H sq b =
      jsRound (h2hWeightFromGrid (some (b.ab_vs_pitcher.getD 0)) b.ops_vs_pitcher * 100) ∧
    (breakdownList sq b).getLast? = some (breakdownH2H sq b) := by
  intro sq hsq b
  have hD := denomOthers_ge sq hsq b
  have hpos : (0:ℚ) < denomOthers sq b := by linarith
  constructor
  · unfold breakdownH2H
    rw [if_pos hpos]
    rfl
  · unfold breakdownList breakdownH2H
    rw [if_pos hpos, if_pos hpos]
    exact List.getLast?_concat _

/-- Witness: the pinned h2h entry at the all-missing bundle. -/
theorem c2_breakdown_h2h_pinned_witness :
    breakdownH2H id bundleMissing =
      jsRound (h2hWeightFromGrid (some (bundleMissing.ab_vs_pitcher.getD 0))
        bundleMissing.ops_vs_pitcher * 100) ∧
    (breakdownList id bundleMissing).getLast? = some (breakdownH2H id bundleMissing) :=
  c2_breakdown_h2h_pinned id (fun _ h1 h2 => ⟨h1, h2⟩) bundleMissing

/-- C10: the opportunity contribution is at least 0.025, hence the sum of
the seven non-h2h contributions is strictly positive and the breakdown
takes the eight-entry main branch, never the single-entry h2h fallback. -/
theorem c10_opportunity_floor :
    ∀ sq : ℚ → ℚ, SqrtSpec sq → ∀ b : SignalBundle,
    0.025 ≤ oppShare b ∧ 0 < denomOthers sq b ∧ (breakdownList sq b).length = 8 := by
  intro sq hsq b
  have h2 := denomOthers_ge sq hsq b
  refine ⟨(oppShare_mem b).1, by linarith, ?_⟩
  unfold breakdownList
  rw [if_pos (by linarith : (0:ℚ) < denomOthers sq b)]
  rw [List.length_append]
  have h7 : (fixedOthers sq b).length = 7 := by
    unfold fixedOthers
    split_ifs
    · rfl
    · rw [List.length_set]
      rfl
  rw [h7]
  rfl

/-- Witness: the opportunity floor at the all-missing bundle. -/
theorem c10_opportunity_floor_witness :
    0.025 ≤ oppShare bundleMissing ∧ 0 < denomOthers id bundleMissing ∧
    (breakdownList id bundleMissing).length = 8 :=
  c10_opportunity_floor id (fun _ h1 h2 => ⟨h1, h2⟩) bundleMissing

/-! ## C4: the redistribution invariant -/

/-- C4 amended: `wtb` and `opp` stay fixed at 0.30 and 0.05, the resolved
`last7` weight never exceeds its base 0.10, and the eight resolved weights
sum to 1 minus the amount the `last7` cap removed — hence to at most 1,
with equality exactly when the cap does not bind. -/
theorem c4_amended :
    ∀ sq : ℚ → ℚ, SqrtSpec sq → ∀ b : SignalBundle,
    (resolvedWeights sq b).wtb = 0.30 ∧
    (resolvedWeights sq b).opp = 0.05 ∧
    (resolvedWeights sq b).last7 ≤ 0.10 ∧
    weightsSumW (resolvedWeights sq b) =
      1 - max 0 (w_last7_dyn sq b * scaleShrink sq b - 0.10) ∧
    weightsSumW (resolvedWeights sq b) ≤ 1 := by
  intro sq hsq b
  have he : weightsSumW (resolvedWeights sq b) = weightsSum sq b := rfl
  exact ⟨rfl, rfl, min_le_right _ _,
    by rw [he]; exact weightsSum_eq sq hsq b,
    by rw [he]; exact weightsSum_le_one sq hsq b⟩

/-- Witness: the amended redistribution invariant at the all-missing
bundle. -/
theorem c4_amended_witness :
    (resolvedWeights id bundleMissing).wtb = 0.30 ∧
    (resolvedWeights id bundleMissing).opp = 0.05 ∧
    (resolvedWeights id bundleMissing).last7 ≤ 0.10 ∧
    weightsSumW (resolvedWeights id bundleMissing) =
      1 - max 0 (w_last7_dyn id bundleMissing * scaleShrink id bundleMissing - 0.10) ∧
    weightsSumW (resolvedWeights id bundleMissing) ≤ 1 :=
  c4_amended id (fun _ h1 h2 => ⟨h1, h2⟩) bundleMissing

lemma bundleCapHit_h2h : w_h2h_dyn bundleCapHit = 1/100 := by
  have hraw : w_h2h_dyn bundleCapHit = h2hWeightFromGrid (some 25) (some (1/5)) := rfl
  have hidx : h2hRowIndex (some (25:ℚ)) = 24 := by
    norm_num [h2hRowIndex, jsRound, min_def, max_def] <;> decide
  have hrow : H2H_GRID_POINTS.getD 24 [] = [1, 1, 4, 6, 14, 22, 25, 28, 30, 30, 30, 30] := rfl
  have hcl2 : clamp ((1:ℚ)/5) 0.2 2.0 = 1/5 := clamp_eq_self _ _ _ (by norm_num) (by norm_num)
  have hfb : findBin (1/5) = 0 := by norm_num [findBin]
  rw [hraw]
  simp only [h2hWeightFromGrid, hidx, hrow, Option.getD_some, hcl2, rowValueAt, hfb]
  norm_num [clamp, H2H_OPS_BINS, min_def, max_def]

lemma bundleCapHit_weightsSum : weightsSumW (resolvedWeights id bundleCapHit) = 149/150 := by
  have e2 : w_last7_dyn id bundleCapHit = 0.10 * 0.50 := rfl
  have e3 : fixedSum bundleCapHit = 9/25 := by
    unfold fixedSum
    rw [bundleCapHit_h2h]
    norm_num
  have e4 : shrinkSum id bundleCapHit = 3/10 := by
    unfold shrinkSum
    rw [e2]
    norm_num
  have e5 : scaleShrink id bundleCapHit = 32/15 := by
    unfold scaleShrink
    rw [e4, e3]
    norm_num [max_def]
  have e6 : w_last7 id bundleCapHit = 1/10 := by
    unfold w_last7
    rw [e2, e5]
    norm_num [min_def]
  have he : weightsSumW (resolvedWeights id bundleCapHit) = weightsSum id bundleCapHit := rfl
  rw [he]
  unfold weightsSum w_h9_side w_h9_28 w_ops_hand w_ops_site
  rw [bundleCapHit_h2h, e5, e6]
  norm_num

/-- C4 counterexample: on `bundleCapHit` the rescaled last7 weight exceeds
its cap, so the eight resolved weights sum to 149/150, not to 1. -/
theorem c4_counterexample :
    ¬ ∀ sq : ℚ → ℚ, SqrtSpec sq → ∀ b : SignalBundle,
        (resolvedWeights sq b).wtb = 0.30 ∧ (resolvedWeights sq b).opp = 0.05 ∧
        (resolvedWeights sq b).last7 ≤ 0.10 ∧ weightsSumW (resolvedWeights sq b) = 1 := by
  intro hcl
  have h := (hcl id (fun _ h1 h2 => ⟨h1, h2⟩) bundleCapHit).2.2.2
  rw [bundleCapHit_weightsSum] at h
  norm_num at h


/-! ## C5: ordering of the combined output document -/

instance : IsTotal Hitter scoreGE := ⟨fun a b => le_total b.score a.score⟩

instance : IsTrans Hitter scoreGE := ⟨fun _ _ _ h1 h2 => le_trans h2 h1⟩

instance : IsTotal Hitter wtbGE := ⟨fun a b => le_total (wtbKey b) (wtbKey a)⟩

instance : IsTrans Hitter wtbGE := ⟨fun _ _ _ h1 h2 => le_trans h2 h1⟩

lemma bundleA_h2h : w_h2h_dyn bundleA = 7/100 := by
  have hraw : w_h2h_dyn bundleA = h2hWeightFromGrid (some 5) (some (2/5)) := rfl
  have hidx : h2hRowIndex (some (5:ℚ)) = 4 := by
    norm_num [h2hRowIndex, jsRound, min_def, max_def] <;> decide
  have hrow : H2H_GRID_POINTS.getD 4 [] = [5, 7, 10, 11, 14, 17, 20, 20, 23, 25, 28, 30] := rfl
  have hcl2 : clamp ((2:ℚ)/5) 0.2 2.0 = 2/5 := clamp_eq_self _ _ _ (by norm_num) (by norm_num)
  have hfb : findBin (2/5) = 0 := by norm_num [findBin]
  rw [hraw]
  simp only [h2hWeightFromGrid, hidx, hrow, Option.getD_some, hcl2, rowValueAt, hfb]
  norm_num [clamp, H2H_OPS_BINS, min_def, max_def]

lemma bundleA_raw : scoreRaw id bundleA = 58/100 := by
  have hl7 : w_last7_dyn id bundleA = 0.10 * 0.50 := rfl
  have hfix : fixedSum bundleA = 21/50 := by
    unfold fixedSum
    rw [bundleA_h2h]
    norm_num
  have hshr : shrinkSum id bundleA = 3/10 := by
    unfold shrinkSum
    rw [hl7]
    norm_num
  have hsc : scaleShrink id bundleA = 29/15 := by
    unfold scaleShrink
    rw [hshr, hfix]
    norm_num [max_def]
  unfold scoreRaw
  rw [denomOthers_eq, bundleA_h2h]
  unfold cWtb cH9side cH928 cOpsHand cOpsSite cLast7 oppShare oppNorm
  have e1 : normWTB bundleA.wtb = 1 := by
    norm_num [show bundleA.wtb = some (3/10) from rfl, normWTB, normWTBfin]
  have e2 : wtbPAConfidence id bundleA.season_pa = 13/20 := by
    norm_num [show bundleA.season_pa = some 100 from rfl, wtbPAConfidence, clamp,
      min_def, max_def]
  have e3 : normH9 bundleA.h9_vs_side = 0.5 := rfl
  have e4 : normH9 bundleA.h9_last28 = 0.5 := rfl
  have e5 : normOPS bundleA.ops_vs_hand = 0.5 := rfl
  have e6 : normOPS bundleA.ops_site = 0.5 := rfl
  have e7 : normOPS bundleA.ops_last7 = 0.5 := rfl
  have e8 : projectedPAFor bundleA.projectedOrder bundleA.opponentIsHome = some 4.10 := rfl
  rw [e1, e2, e3, e4, e5, e6, e7, e8]
  unfold w_h9_side w_h9_28 w_ops_hand w_ops_site w_last7
  rw [hsc, hl7]
  norm_num [clamp, min_def, max_def]

lemma bundleA_score : scaledScore id bundleA = 58 := by
  obtain ⟨hS, -, -⟩ := scaledScore_eq id (fun _ h1 h2 => ⟨h1, h2⟩) bundleA
  rw [hS, bundleA_raw]
  norm_num [jsRound]

lemma bundleB_h2h : w_h2h_dyn bundleB = 29/100 := by
  have hraw : w_h2h_dyn bundleB = h2hWeightFromGrid (some 20) (some 1) := rfl
  have hidx : h2hRowIndex (some (20:ℚ)) = 19 := by
    norm_num [h2hRowIndex, jsRound, min_def, max_def] <;> decide
  have hrow : H2H_GRID_POINTS.getD 19 [] = [1, 1, 5, 7, 14, 22, 24, 25, 29, 30, 30, 30] := rfl
  have hcl2 : clamp ((1:ℚ)) 0.2 2.0 = 1 := clamp_eq_self _ _ _ (by norm_num) (by norm_num)
  have hfb : findBin 1 = 7 := by norm_num [findBin]
  rw [hraw]
  simp only [h2hWeightFromGrid, hidx, hrow, Option.getD_some, hcl2, rowValueAt, hfb]
  norm_num [clamp, H2H_OPS_BINS, min_def, max_def]

lemma bundleB_raw : scoreRaw id bundleB = 1139/1225 := by
  have hl7 : w_last7_dyn id bundleB =
      if 3 ≤ (20:ℚ) then 0.10 * (0.50 + 0.50 * id (clamp (((20:ℚ) - 3) / (20 - 3)) 0 1))
      else 0.10 * 0.50 := rfl
  have hl7v : w_last7_dyn id bundleB = 1/10 := by
    rw [hl7]
    norm_num [clamp, min_def, max_def]
  have hfix : fixedSum bundleB = 16/25 := by
    unfold fixedSum
    rw [bundleB_h2h]
    norm_num
  have hshr : shrinkSum id bundleB = 7/20 := by
    unfold shrinkSum
    rw [hl7v]
    norm_num
  have hsc : scaleShrink id bundleB = 36/35 := by
    unfold scaleShrink
    rw [hshr, hfix]
    norm_num [max_def]
  unfold scoreRaw
  rw [denomOthers_eq, bundleB_h2h]
  unfold cWtb cH9side cH928 cOpsHand cOpsSite cLast7 oppShare oppNorm
  have e1 : normWTB bundleB.wtb = 38/49 := by
    norm_num [show bundleB.wtb = some (1/4) from rfl, normWTB, normWTBfin]
  have e2 : wtbPAConfidence id bundleB.season_pa = 1 := by
    norm_num [show bundleB.season_pa = some 500 from rfl, wtbPAConfidence, clamp,
      min_def, max_def]
  have e3 : normH9 bundleB.h9_vs_side = 1 := by
    norm_num [show bundleB.h9_vs_side = some 12 from rfl, normH9, normH9fin, clamp,
      min_def, max_def]
  have e4 : normH9 bundleB.h9_last28 = 1 := by
    norm_num [show bundleB.h9_last28 = some 12 from rfl, normH9, normH9fin, clamp,
      min_def, max_def]
  have e5 : normOPS bundleB.ops_vs_hand = 1 := by
    norm_num [show bundleB.ops_vs_hand = some (21/20) from rfl, normOPS, normOPSfin, clamp,
      min_def, max_def]
  have e6 : normOPS bundleB.ops_site = 1 := by
    norm_num [show bundleB.ops_site = some (21/20) from rfl, normOPS, normOPSfin, clamp,
      min_def, max_def]
  have e7 : normOPS bundleB.ops_last7 = 1 := by
    norm_num [show bundleB.ops_last7 = some (21/20) from rfl, normOPS, normOPSfin, clamp,
      min_def, max_def]
  have e8 : projectedPAFor bundleB.projectedOrder bundleB.opponentIsHome = some 4.69 := rfl
  rw [e1, e2, e3, e4, e5, e6, e7, e8]
  unfold w_h9_side w_h9_28 w_ops_hand w_ops_site w_last7
  rw [hsc, hl7v]
  norm_num [clamp, min_def, max_def]

lemma bundleB_score : scaledScore id bundleB = 93 := by
  obtain ⟨hS, -, -⟩ := scaledScore_eq id (fun _ h1 h2 => ⟨h1, h2⟩) bundleB
  rw [hS, bundleB_raw]
  norm_num [jsRound]

lemma hitterA_filter : hitterFilter (mkHitter id bundleA) = true := by decide

lemma hitterB_filter : hitterFilter (mkHitter id bundleB) = true := by decide

lemma perGameA : perGameHitters id [bundleA] = [mkHitter id bundleA] := by
  unfold perGameHitters
  rw [List.map_cons, List.map_nil, List.filter_cons_of_pos hitterA_filter, List.filter_nil]
  rfl

lemma perGameB : perGameHitters id [bundleB] = [mkHitter id bundleB] := by
  unfold perGameHitters
  rw [List.map_cons, List.map_nil, List.filter_cons_of_pos hitterB_filter, List.filter_nil]
  rfl

lemma wtbKeyA : wtbKey (mkHitter id bundleA) = 3/10 := by
  have h : wtbKey (mkHitter id bundleA) = toFixed3 (3/10) := rfl
  rw [h]
  norm_num [toFixed3, jsRound]

lemma wtbKeyB : wtbKey (mkHitter id bundleB) = 1/4 := by
  have h : wtbKey (mkHitter id bundleB) = toFixed3 (1/4) := rfl
  rw [h]
  norm_num [toFixed3, jsRound]

lemma combinedAB :
    combinedHitters [[mkHitter id bundleA], [mkHitter id bundleB]] =
      [mkHitter id bundleA, mkHitter id bundleB] := by
  unfold combinedHitters
  have hfa : decide (85 ≤ (mkHitter id bundleA).season_pa.getD 0) = true := by decide
  have hfb : decide (85 ≤ (mkHitter id bundleB).season_pa.getD 0) = true := by decide
  have hflat : ([[mkHitter id bundleA], [mkHitter id bundleB]] : List (List Hitter)).flatten =
      [mkHitter id bundleA, mkHitter id bundleB] := rfl
  rw [hflat, List.filter_cons_of_pos (by exact hfa), List.filter_cons_of_pos (by exact hfb),
    List.filter_nil]
  have hord : wtbGE (mkHitter id bundleA) (mkHitter id bundleB) := by
    unfold wtbGE
    rw [wtbKeyA, wtbKeyB]
    norm_num
  show List.insertionSort wtbGE _ = _
  simp only [List.insertionSort, List.orderedInsert]
  rw [if_pos hord]

/-- C5 counterexample: the combined document is sorted by `wtb_percent`,
not by score.  `bundleA` (hit rate 0.300, score 58) sorts above `bundleB`
(hit rate 0.250, score 93), so the combined hitters array is not ordered
by score descending. -/
theorem c5_counterexample :
    ¬ ∀ sq : ℚ → ℚ, SqrtSpec sq → ∀ gs : List (List SignalBundle),
        List.Sorted (fun a b : Hitter => b.score ≤ a.score)
          (combinedHitters (gs.map (perGameHitters sq))) := by
  intro hcl
  have h := hcl id (fun _ h1 h2 => ⟨h1, h2⟩) [[bundleA], [bundleB]]
  rw [show ([[bundleA], [bundleB]] : List (List SignalBundle)).map (perGameHitters id) =
      [perGameHitters id [bundleA], perGameHitters id [bundleB]] from rfl,
    perGameA, perGameB, combinedAB] at h
  have h2 := (List.sorted_cons.mp h).1 (mkHitter id bundleB) (List.mem_cons_self _ _)
  have hA : (mkHitter id bundleA).score = scaledScore id bundleA := rfl
  have hB : (mkHitter id bundleB).score = scaledScore id bundleB := rfl
  rw [hA, hB, bundleA_score, bundleB_score] at h2
  omega

/-- C5 amended: the per-game `hitters` arrays are sorted by score
descending, but the combined output document's hitters array is sorted by
`wtb_percent` descending (missing values as −1), not by score. -/
theorem c5_amended :
    (∀ per : List (List Hitter), List.Sorted wtbGE (combinedHitters per)) ∧
    (∀ (sq : ℚ → ℚ) (bs : List SignalBundle),
      List.Sorted scoreGE (perGameHitters sq bs)) := by
  constructor
  · intro per
    exact List.sorted_insertionSort _ _
  · intro sq bs
    exact List.sorted_insertionSort _ _

end BVP
